import Mathlib

/-!
Verification of the Longstaff-Schwartz least-squares Monte-Carlo (LSMC)
American put pricer of `AmOption.ipynb` (class `AmOption`, methods `payOff`,
`regressionFunction`, `getContinuationValue`, `priceAmByLSMC`, and the
European benchmark `EurOption.priceByBSMC`).

The embedding is a shallow one over an arbitrary linearly ordered field `K`
(the Python code computes with real numbers; floating-point rounding is
idealised away).  Matrices are total functions `ℕ → ℕ → K`; the meaningful
entries are the ones below the declared shape, exactly as a NumPy array of
that shape.  The per-step discount factor `discStep` stands for the value
`exp (-r * dt)` that the code computes, so that the code's
`np.exp(-r * dt * k)` is `discStep ^ k`; instantiating `discStep` with
`Real.exp (-(r * dt))` recovers the code's run verbatim.

The source keeps the step count in two places (`optionObj.nSteps`, used by
the final discounting loop, and `modelObj.nSteps`, used everywhere else) and
they coincide in every use of the class; the embedding keeps both fields.
`stockObj` and `modelObj.stockObj` are the same object in every use, so a
single `discStep` is kept.
-/

namespace LSMC

variable {K : Type} [LinearOrderedField K]

/-- Pricing parameters of one run: the fields of the `Stock`, `Option` and
`BSModel` objects that `priceAmByLSMC` actually reads. -/
structure AmOptionParams (K : Type) where
  strike : K
  optionNSteps : ℕ
  modelNSteps : ℕ
  numberOfPaths : ℕ
  discStep : K

/-- Embeds `AmOption.payOff`: `np.maximum(self.optionObj.strike - pathCrossSection, 0)`,
the intrinsic payoff of the put, applied entrywise. -/
def payOff (P : AmOptionParams K) (s : K) : K := max (P.strike - s) 0

/-- Determinant of a 3x3 matrix given row by row. -/
def det3 (a b c d e f g h i : K) : K :=
  a * (e * i - f * h) - b * (d * i - f * g) + c * (d * h - e * g)

/-- Sum of the `k`-th powers of the regressors `x` of a data set of pairs
`(x, y)`.  These are the entries of the Gram matrix of the design matrix
with rows `(1, x, x^2)`. -/
def sumPow (data : List (K × K)) (k : ℕ) : K := (data.map (fun q => q.1 ^ k)).sum

/-- Sum of `y * x ^ k` over a data set: the entries of the right-hand side of
the normal equations. -/
def sumYX (data : List (K × K)) (k : ℕ) : K := (data.map (fun q => q.2 * q.1 ^ k)).sum

/-- Determinant of the Gram matrix of the quadratic design. -/
def gramDet (data : List (K × K)) : K :=
  det3 (sumPow data 0) (sumPow data 1) (sumPow data 2)
    (sumPow data 1) (sumPow data 2) (sumPow data 3)
    (sumPow data 2) (sumPow data 3) (sumPow data 4)

/-- Mean of the `y` values of the data points whose regressor equals `x`. -/
def groupMeanY (data : List (K × K)) (x : K) : K :=
  let g := data.filter (fun q => decide (q.1 = x))
  (g.map (fun q => q.2)).sum / (g.length : K)

/-- Marker value for the regression configurations in which the Python
pipeline raises instead of producing coefficients: when the in-the-money
design `{X, X^2}` already contains a constant column (all prices equal, or
exactly two distinct prices with equal squares) or is empty,
`sm.add_constant` (default `has_constant='skip'`) omits the intercept, so
`getContinuationValue`'s `regFunc.params['const']` lookup raises
`KeyError`.  The total embedding must still return a triple; no theorem
relies on the value of these configurations, and the failure model
(`regressionRaises` / `priceAmByLSMCChecked`) reports them as errors. -/
def olsRaisesKeyError : K × K × K := (0, 0, 0)

/-- Embeds `sm.OLS(y, X).fit()` on the design `{1, X, X^2}`: statsmodels
computes the least-squares parameters through the Moore-Penrose
pseudo-inverse of the design matrix.  When the Gram matrix is invertible
this is the unique solution of the normal equations, written here by
Cramer's rule.  When it is singular there are fewer than three distinct
regressor values; in the one completing rank-deficient configuration —
exactly two distinct prices `x1 ≠ x2` with `x1^2 ≠ x2^2`, so that
`sm.add_constant` does add the intercept — the pseudo-inverse yields the
minimum-norm least-squares solution, which by the full-rank factorisation
`A = B C` of the design (`B` the group indicator matrix of the two distinct
regressor values, `C` their Vandermonde rows) equals
`Cᵀ (C Cᵀ)⁻¹ (group means of y)`.  Every other singular configuration
(empty frame, a single repeated price, or two distinct prices with equal
squares, where the `X` or `X^2` column is constant) makes the real
pipeline raise `KeyError('const')` and is mapped to `olsRaisesKeyError`. -/
def olsFit3 (data : List (K × K)) : K × K × K :=
  let s0 := sumPow data 0
  let s1 := sumPow data 1
  let s2 := sumPow data 2
  let s3 := sumPow data 3
  let s4 := sumPow data 4
  let t0 := sumYX data 0
  let t1 := sumYX data 1
  let t2 := sumYX data 2
  let dM := det3 s0 s1 s2 s1 s2 s3 s2 s3 s4
  if dM = 0 then
    match (data.map (fun q => q.1)).dedup with
    | [] => olsRaisesKeyError
    | [_] => olsRaisesKeyError
    | x1 :: x2 :: _ =>
      if x1 ^ 2 = x2 ^ 2 then olsRaisesKeyError
      else
        let m1 := groupMeanY data x1
        let m2 := groupMeanY data x2
        let p11 := 1 + x1 ^ 2 + x1 ^ 4
        let p12 := 1 + x1 * x2 + (x1 * x2) ^ 2
        let p22 := 1 + x2 ^ 2 + x2 ^ 4
        let dD := p11 * p22 - p12 * p12
        let a1 := (p22 * m1 - p12 * m2) / dD
        let a2 := (p11 * m2 - p12 * m1) / dD
        (a1 + a2, a1 * x1 + a2 * x2, a1 * x1 ^ 2 + a2 * x2 ^ 2)
  else
    (det3 t0 s1 s2 t1 s2 s3 t2 s3 s4 / dM,
     det3 s0 t0 s2 s1 t1 s3 s2 t2 s4 / dM,
     det3 s0 s1 t0 s1 s2 t1 s2 s3 t2 / dM)

/-- Embeds `AmOption.getContinuationValue` at one path: the fitted value
`intercept + coefficient_X * s + coefficient_X_squared * s ^ 2` of the
regression model.  (The `immediatePayoff` argument of the Python method is
never read by its body and is dropped here.) -/
def getContinuationValue (regFunc : K × K × K) (pathCrossSectionTminus1 : K) : K :=
  regFunc.1 + regFunc.2.1 * pathCrossSectionTminus1 +
    regFunc.2.2 * pathCrossSectionTminus1 ^ 2

/-- Columns `c, c+1, ...` of a matrix: the NumPy slice `M[:, c:]`. -/
def subCols (M : ℕ → ℕ → K) (c : ℕ) : ℕ → ℕ → K := fun p j => M p (c + j)

/-- The regression data frame built inside `AmOption.regressionFunction`:
`Y[p] = np.sum(pathCrossSectionPayOff[p] * exerciseD[p] * dfs)` (the
broadcast multiplies column `j` by `dfs[j]`), `X[p]` is column `0` of
`pathCrossSectionTminus1`, and only the rows with `X < strike` (the put
being in the money) are kept: `regression = regression[regression['X'] < strike]`.
Filtering after computing `Y` for all rows, as the code does, yields the
same list as computing `Y` on the kept rows. -/
def regressionData (P : AmOptionParams K) (pathCrossSectionPayOff : ℕ → ℕ → K)
    (pathCrossSectionTminus1 : ℕ → ℕ → K) (exerciseD : ℕ → ℕ → K)
    (dfs : List K) : List (K × K) :=
  ((List.range P.numberOfPaths).filter
      (fun p => decide (pathCrossSectionTminus1 p 0 < P.strike))).map
    (fun p => (pathCrossSectionTminus1 p 0,
      ∑ j ∈ Finset.range dfs.length,
        pathCrossSectionPayOff p j * exerciseD p j * dfs.getD j 0))

/-- Embeds `AmOption.regressionFunction`: build the in-the-money data frame
and fit `Y` on `{1, X, X^2}` by ordinary least squares. -/
def regressionFunction (P : AmOptionParams K) (pathCrossSectionPayOff : ℕ → ℕ → K)
    (pathCrossSectionTminus1 : ℕ → ℕ → K) (exerciseD : ℕ → ℕ → K)
    (dfs : List K) : K × K × K :=
  olsFit3 (regressionData P pathCrossSectionPayOff pathCrossSectionTminus1 exerciseD dfs)

/-- The mutable state of one `priceAmByLSMC` run: the read-only sample-path
matrix together with the two matrices and the discount-factor sequence the
loop updates in place. -/
structure LSMCState (K : Type) where
  samplePaths : ℕ → ℕ → K
  payoffMatrix : ℕ → ℕ → K
  exerciseDecisionMatrix : ℕ → ℕ → K
  discountFactors : List K

/-- The state after the terminal-column initialisation of `priceAmByLSMC`:
both matrices are `np.zeros((numberOfPaths, nSteps))`, then
`payoffMatrix[:, -1] = payOff(samplePaths[:, -1])` and
`exerciseDecisionMatrix[:, -1] = np.where(payoffMatrix[:, -1] > 0, 1, 0)`.
`spCols` is the column count of the supplied sample-path matrix, so its
NumPy index `-1` is column `spCols - 1`. -/
def initState (P : AmOptionParams K) (samplePaths : ℕ → ℕ → K) (spCols : ℕ) :
    LSMCState K :=
  { samplePaths := samplePaths
    payoffMatrix := fun p i =>
      if i = P.modelNSteps - 1 then payOff P (samplePaths p (spCols - 1)) else 0
    exerciseDecisionMatrix := fun p i =>
      if i = P.modelNSteps - 1 then
        (if payOff P (samplePaths p (spCols - 1)) > 0 then 1 else 0)
      else 0
    discountFactors := [] }

/-- The regression model fitted during the body of the backward loop at time
index `t`: the code calls `regressionFunction(payoffMatrix[:, t+1:],
samplePaths[:, t+1:], exerciseDecisionMatrix[:, t+1:], discountFactors)`
after appending `exp(-r dt (nSteps - t - 1))` to the discount factors.
(Columns `t+1` onward are not touched by the two column-`t` writes that
precede the call, so the pre-step matrices can be passed.) -/
def stepModel (P : AmOptionParams K) (t : ℕ) (st : LSMCState K) : K × K × K :=
  regressionFunction P (subCols st.payoffMatrix (t + 1))
    (subCols st.samplePaths (t + 1)) (subCols st.exerciseDecisionMatrix (t + 1))
    (st.discountFactors ++ [P.discStep ^ (P.modelNSteps - t - 1)])

/-- The exercise condition of the backward loop at time index `t` for path
`p`: `(payoffMatrix[:, t] > contValue) & (payoffMatrix[:, t] > 0)`, where
column `t` has just been set to the immediate payoff
`payOff(samplePaths[:, t+1])` and `contValue` is the fitted continuation
value at `samplePaths[:, t+1]`. -/
def stepCond (P : AmOptionParams K) (t : ℕ) (st : LSMCState K) (p : ℕ) : Prop :=
  payOff P (st.samplePaths p (t + 1)) >
      getContinuationValue (stepModel P t st) (st.samplePaths p (t + 1)) ∧
    payOff P (st.samplePaths p (t + 1)) > 0

instance (P : AmOptionParams K) (t : ℕ) (st : LSMCState K) (p : ℕ) :
    Decidable (stepCond P t st p) := by
  unfold stepCond; infer_instance

/-- One iteration of the backward loop of `priceAmByLSMC` at time index `t`:
write the immediate payoff and its indicator into column `t`, append the new
discount factor, fit the regression, and apply the exercise decision —
`payoffMatrix[:, t] = np.where(condition, payoffMatrix[:, t], 0)`,
`exerciseDecisionMatrix[:, t] = np.where(condition, 1, 0)`,
`payoffMatrix[condition, t+1:] = 0`,
`exerciseDecisionMatrix[condition, t+1:] = 0`. -/
def lsmcStep (P : AmOptionParams K) (t : ℕ) (st : LSMCState K) : LSMCState K :=
  { samplePaths := st.samplePaths
    payoffMatrix := fun p i =>
      if i = t then
        (if stepCond P t st p then payOff P (st.samplePaths p (t + 1)) else 0)
      else if t < i ∧ stepCond P t st p then 0
      else st.payoffMatrix p i
    exerciseDecisionMatrix := fun p i =>
      if i = t then (if stepCond P t st p then 1 else 0)
      else if t < i ∧ stepCond P t st p then 0
      else st.exerciseDecisionMatrix p i
    discountFactors := st.discountFactors ++ [P.discStep ^ (P.modelNSteps - t - 1)] }

/-- The time indices of the backward loop, in execution order:
`range(nSteps - 2, -1, -1)` is `[nSteps - 2, ..., 1, 0]`. -/
def stepTimes (P : AmOptionParams K) : List ℕ :=
  (List.range (P.modelNSteps - 1)).reverse

/-- The state after the first `k` iterations of the backward loop (so `k = 0`
is the state right after the terminal-column initialisation). -/
def runUpTo (P : AmOptionParams K) (samplePaths : ℕ → ℕ → K) (spCols : ℕ)
    (k : ℕ) : LSMCState K :=
  ((stepTimes (K := K) P).take k).foldl (fun st t => lsmcStep P t st)
    (initState P samplePaths spCols)

/-- The state after the whole backward loop. -/
def loopState (P : AmOptionParams K) (samplePaths : ℕ → ℕ → K) (spCols : ℕ) :
    LSMCState K :=
  (stepTimes (K := K) P).foldl (fun st t => lsmcStep P t st)
    (initState P samplePaths spCols)

/-- What `priceAmByLSMC` returns (the regression log `results_dict` is pure
diagnostics and is omitted). -/
structure LSMCResult (K : Type) where
  V : K
  payoffMatrix : ℕ → ℕ → K
  exerciseDecisionMatrix : ℕ → ℕ → K

/-- Embeds `AmOption.priceAmByLSMC`: after the backward loop, every column
`i < optionObj.nSteps` of the payoff matrix is multiplied by
`exp(-r * dt * (i+1))`, and `V = np.sum(payoffMatrix) / numberOfPaths`,
summing the whole `(numberOfPaths, modelNSteps)` matrix. -/
def priceAmByLSMC (P : AmOptionParams K) (samplePaths : ℕ → ℕ → K)
    (spCols : ℕ) : LSMCResult K :=
  let st := loopState P samplePaths spCols
  let pmFinal : ℕ → ℕ → K := fun p i =>
    if i < P.optionNSteps then st.payoffMatrix p i * P.discStep ^ (i + 1)
    else st.payoffMatrix p i
  { V := (∑ p ∈ Finset.range P.numberOfPaths,
        ∑ i ∈ Finset.range P.modelNSteps, pmFinal p i) / (P.numberOfPaths : K)
    payoffMatrix := pmFinal
    exerciseDecisionMatrix := st.exerciseDecisionMatrix }

/-- Embeds the put branch of `EurOption.priceByBSMC`:
`payoff = np.maximum(strike - samplePaths[:, -1], 0)`, then
`payoff = payoff * np.exp(-r * timeToExpiry)` and `np.mean(payoff)`.
`discT` stands for `exp(-r * timeToExpiry)` and `numberOfPaths` for the row
count of the matrix (over which `np.mean` averages). -/
def priceByBSMC (strike discT : K) (numberOfPaths : ℕ)
    (samplePaths : ℕ → ℕ → K) (spCols : ℕ) : K :=
  (∑ p ∈ Finset.range numberOfPaths,
      max (strike - samplePaths p (spCols - 1)) 0 * discT) / (numberOfPaths : K)

/-- Number of nonzero entries of row `p` among the first `width` columns. -/
def rowNonzeroCount (M : ℕ → ℕ → K) (width p : ℕ) : ℕ :=
  ((List.range width).filter (fun i => decide (M p i ≠ 0))).length

/-- Residual sum of squares of the quadratic model `c` on a data set: the
quantity ordinary least squares minimises over `{1, X, X^2}`. -/
def sse (data : List (K × K)) (c : K × K × K) : K :=
  (data.map (fun q => (q.2 - (c.1 + c.2.1 * q.1 + c.2.2 * q.1 ^ 2)) ^ 2)).sum

/-- The dependent value that path `p` contributes to the regression data of
the backward-loop iteration at time index `t` from state `st` (whether or not
the path is kept by the in-the-money filter): the realized discounted future
cash flow `np.sum(payoff * indicator * discountFactor)` over the columns
after `t`. -/
def stepYval (P : AmOptionParams K) (t : ℕ) (st : LSMCState K) (p : ℕ) : K :=
  ∑ j ∈ Finset.range
      (st.discountFactors ++ [P.discStep ^ (P.modelNSteps - t - 1)]).length,
    st.payoffMatrix p (t + 1 + j) * st.exerciseDecisionMatrix p (t + 1 + j) *
      (st.discountFactors ++ [P.discStep ^ (P.modelNSteps - t - 1)]).getD j 0

/-- The regression data frame built by iteration `k` of the backward loop of
a `priceAmByLSMC` run (iteration `k` processes time index
`modelNSteps - 2 - k`). -/
def stepDataAt (P : AmOptionParams K) (sp : ℕ → ℕ → K) (spCols k : ℕ) :
    List (K × K) :=
  let t := P.modelNSteps - 2 - k
  let st := runUpTo P sp spCols k
  regressionData P (subCols st.payoffMatrix (t + 1))
    (subCols st.samplePaths (t + 1)) (subCols st.exerciseDecisionMatrix (t + 1))
    (st.discountFactors ++ [P.discStep ^ (P.modelNSteps - t - 1)])

/-- Whether the regression pipeline of one backward iteration raises on the
given data frame.  An empty in-the-money frame fails inside `sm.OLS`; and
when all in-the-money prices are equal, or there are exactly two distinct
prices with equal squares, the design's `X` (respectively `X_Squared`)
column is constant, so `sm.add_constant` (default `has_constant='skip'`)
omits the intercept and `getContinuationValue`'s `regFunc.params['const']`
lookup raises `KeyError`.  With three or more distinct prices no design
column is constant (a square takes each value at most twice), the design
has full column rank, and the fit succeeds. -/
def regressionRaises (data : List (K × K)) : Bool :=
  match (data.map (fun q => q.1)).dedup with
  | [] => true
  | [_] => true
  | [x1, x2] => decide (x1 ^ 2 = x2 ^ 2)
  | _ => false

/-- Run-time failure model of `priceAmByLSMC` on a sample-path matrix of
shape `(spRows, spCols)`: `none` marks the points where the Python run
raises.  In order of execution: reading `samplePaths[:, -1]` of a
zero-column matrix raises; assigning `payoffMatrix[:, -1]` raises when the
payoff matrix has zero columns (`modelNSteps = 0`) or when the assigned
vector's length `spRows` can not broadcast over the `numberOfPaths`-row
column — NumPy broadcasting accepts `spRows = numberOfPaths` and also
`spRows = 1` (the single row is replicated); the first loop iteration
reads `samplePaths[:, nSteps - 1]`, which raises when `2 ≤ modelNSteps`
and `spCols < modelNSteps`; a broadcast 1-row matrix with
`numberOfPaths ≠ 1` survives the column writes but dies in the first
regression-frame build (`regression['X'] = ...` assigns a length-1 vector
against a length-`numberOfPaths` index, a pandas `ValueError`), which the
loop reaches exactly when `2 ≤ modelNSteps`; with `modelNSteps = 1` there
is no loop and the broadcast run completes, every row carrying row 0's
terminal payoff; a regression on which `regressionRaises` holds fails in
`sm.add_constant` / the `params['const']` lookup; the finalisation loop
reads `payoffMatrix[:, i]` for `i < optionNSteps` and raises when
`optionNSteps` exceeds the matrix's `modelNSteps` columns.  Otherwise the
run completes and returns the price. -/
def priceAmByLSMCChecked (P : AmOptionParams K) (sp : ℕ → ℕ → K)
    (spRows spCols : ℕ) : Option K :=
  if spCols = 0 then none
  else if P.modelNSteps = 0 then none
  else if spRows ≠ P.numberOfPaths ∧ spRows ≠ 1 then none
  else if 2 ≤ P.modelNSteps ∧ spCols < P.modelNSteps then none
  else if spRows = 1 ∧ P.numberOfPaths ≠ 1 then
    if 2 ≤ P.modelNSteps then none
    else if P.modelNSteps < P.optionNSteps then none
    else some (priceAmByLSMC P (fun _ j => sp 0 j) spCols).V
  else if (List.range (P.modelNSteps - 1)).any
      (fun k => regressionRaises (stepDataAt P sp spCols k)) then none
  else if P.modelNSteps < P.optionNSteps then none
  else some (priceAmByLSMC P sp spCols).V

section RunLemmas

variable {P : AmOptionParams K} {sp : ℕ → ℕ → K} {spCols : ℕ}

theorem runUpTo_zero : runUpTo P sp spCols 0 = initState P sp spCols := rfl

theorem stepTimes_take_succ {k : ℕ} (hk : k < P.modelNSteps - 1) :
    (stepTimes P).take (k + 1) =
      (stepTimes P).take k ++ [P.modelNSteps - 2 - k] := by
  unfold stepTimes
  rw [List.take_succ, List.getElem?_reverse (by simpa using hk)]
  simp only [List.length_range]
  rw [List.getElem?_range (by omega)]
  have : P.modelNSteps - 1 - 1 - k = P.modelNSteps - 2 - k := by omega
  simp [this]

theorem runUpTo_succ_of_lt {k : ℕ} (hk : k < P.modelNSteps - 1) :
    runUpTo P sp spCols (k + 1) =
      lsmcStep P (P.modelNSteps - 2 - k) (runUpTo P sp spCols k) := by
  unfold runUpTo
  rw [stepTimes_take_succ hk, List.foldl_append]
  rfl

theorem runUpTo_succ_of_ge {k : ℕ} (hk : P.modelNSteps - 1 ≤ k) :
    runUpTo P sp spCols (k + 1) = runUpTo P sp spCols k := by
  unfold runUpTo
  have hlen : (stepTimes P).length = P.modelNSteps - 1 := by
    simp [stepTimes]
  rw [List.take_of_length_le (by omega), List.take_of_length_le (by omega)]

theorem loopState_eq_runUpTo :
    loopState P sp spCols = runUpTo P sp spCols (P.modelNSteps - 1) := by
  unfold loopState runUpTo
  rw [List.take_of_length_le (by simp [stepTimes])]

end RunLemmas

section Invariants

theorem length_filter_le_one {q : ℕ → Bool} {l : List ℕ} (t : ℕ)
    (hq : ∀ i ∈ l, q i = true → i = t) (hl : l.Nodup) :
    (l.filter q).length ≤ 1 := by
  induction l with
  | nil => simp
  | cons a l ih =>
    rw [List.filter_cons]
    by_cases ha : q a = true
    · have hat : a = t := hq a (by simp) ha
      have hnil : l.filter q = [] := by
        rw [List.eq_nil_iff_forall_not_mem]
        intro x hx
        have hxl : x ∈ l := List.mem_of_mem_filter hx
        have hxq : q x = true := List.of_mem_filter hx
        have hxt : x = t := hq x (by simp [hxl]) hxq
        exact (List.nodup_cons.mp hl).1 (by rw [hat, ← hxt] at *; exact hxl)
      simp [ha, hnil]
    · simp only [ha]
      simpa using ih (fun i hi hqi => hq i (by simp [hi]) hqi)
        (List.nodup_cons.mp hl).2

theorem rowNonzeroCount_le_one {M : ℕ → ℕ → K} {width p : ℕ} (t : ℕ)
    (h : ∀ i, i < width → i ≠ t → M p i = 0) :
    rowNonzeroCount M width p ≤ 1 := by
  unfold rowNonzeroCount
  refine length_filter_le_one t ?_ (List.nodup_range _)
  intro i hi hq
  by_contra hit
  have hz := h i (List.mem_range.mp hi) hit
  simp [hz] at hq

theorem rowNonzeroCount_congr {M N : ℕ → ℕ → K} {width p : ℕ}
    (h : ∀ i, i < width → M p i = N p i) :
    rowNonzeroCount M width p = rowNonzeroCount N width p := by
  unfold rowNonzeroCount
  congr 1
  refine List.filter_congr ?_
  intro i hi
  simp [h i (List.mem_range.mp hi)]

/-- The loop invariant of `priceAmByLSMC` after `k` iterations of the
backward loop: the sample paths are untouched; the columns not yet
processed are still zero; payoffs are nonnegative; the exercise indicator
is `1` exactly where the payoff is positive; every row of both matrices has
at most one nonzero entry; and the discount-factor sequence is
`[d^1, ..., d^(min k (nSteps-1))]`. -/
structure StateOK (P : AmOptionParams K) (sp : ℕ → ℕ → K) (k : ℕ)
    (st : LSMCState K) : Prop where
  sp_eq : st.samplePaths = sp
  lowZero : ∀ p i, i + 1 + k < P.modelNSteps →
    st.payoffMatrix p i = 0 ∧ st.exerciseDecisionMatrix p i = 0
  nonneg : ∀ p i, 0 ≤ st.payoffMatrix p i
  edIff : ∀ p i, st.exerciseDecisionMatrix p i =
    if 0 < st.payoffMatrix p i then 1 else 0
  once : ∀ p, rowNonzeroCount st.payoffMatrix P.modelNSteps p ≤ 1 ∧
    rowNonzeroCount st.exerciseDecisionMatrix P.modelNSteps p ≤ 1
  dfs_eq : st.discountFactors =
    (List.range (min k (P.modelNSteps - 1))).map (fun j => P.discStep ^ (j + 1))

theorem stateOK_init {P : AmOptionParams K} {sp : ℕ → ℕ → K} {spCols : ℕ} :
    StateOK P sp 0 (initState P sp spCols) := by
  constructor
  · rfl
  · intro p i hi
    have : i ≠ P.modelNSteps - 1 := by omega
    simp [initState, this]
  · intro p i
    simp only [initState]
    split
    · exact le_max_right _ _
    · exact le_rfl
  · intro p i
    simp only [initState]
    split
    · rfl
    · simp
  · intro p
    constructor
    · refine rowNonzeroCount_le_one (P.modelNSteps - 1) ?_
      intro i _ hit
      simp [initState, hit]
    · refine rowNonzeroCount_le_one (P.modelNSteps - 1) ?_
      intro i _ hit
      simp [initState, hit]
  · simp [initState]

theorem stateOK_step {P : AmOptionParams K} {sp : ℕ → ℕ → K} {k : ℕ}
    {st : LSMCState K} (hk : k < P.modelNSteps - 1) (h : StateOK P sp k st) :
    StateOK P sp (k + 1) (lsmcStep P (P.modelNSteps - 2 - k) st) := by
  set t := P.modelNSteps - 2 - k with ht
  have hm : k + 2 ≤ P.modelNSteps := by omega
  have htk : t + 1 + k = P.modelNSteps - 1 := by omega
  have hpayt0 : ∀ p, st.payoffMatrix p t = 0 := by
    intro p
    exact (h.lowZero p t (by omega)).1
  have hedt0 : ∀ p, st.exerciseDecisionMatrix p t = 0 := by
    intro p
    exact (h.lowZero p t (by omega)).2
  constructor
  · exact h.sp_eq
  · intro p i hi
    have hit : i ≠ t := by omega
    have hit2 : ¬ t < i := by omega
    have hold := h.lowZero p i (by omega)
    simp only [lsmcStep, hit, if_false, hit2, false_and]
    simpa using hold
  · intro p i
    simp only [lsmcStep]
    split
    · split
      · exact le_max_right _ _
      · exact le_rfl
    · split
      · exact le_rfl
      · exact h.nonneg p i
  · intro p i
    simp only [lsmcStep]
    by_cases hit : i = t
    · simp only [hit, if_pos rfl]
      by_cases hc : stepCond P t st p
      · simp [hc, if_pos hc.2]
      · simp [hc]
    · simp only [hit, if_false]
      by_cases hti : t < i ∧ stepCond P t st p
      · simp [hti]
      · simp only [hti, if_false]
        exact h.edIff p i
  · intro p
    by_cases hc : stepCond P t st p
    · constructor
      · refine rowNonzeroCount_le_one t ?_
        intro i hi hit
        simp only [lsmcStep, hit, if_false]
        rcases Nat.lt_or_ge t i with hti | hti
        · simp [hti, hc]
        · have : ¬ t < i := by omega
          simp only [this, false_and, if_false]
          exact (h.lowZero p i (by omega)).1
      · refine rowNonzeroCount_le_one t ?_
        intro i hi hit
        simp only [lsmcStep, hit, if_false]
        rcases Nat.lt_or_ge t i with hti | hti
        · simp [hti, hc]
        · have : ¬ t < i := by omega
          simp only [this, false_and, if_false]
          exact (h.lowZero p i (by omega)).2
    · have hp : ∀ i, i < P.modelNSteps →
          (lsmcStep P t st).payoffMatrix p i = st.payoffMatrix p i := by
        intro i _
        simp only [lsmcStep]
        by_cases hit : i = t
        · simp [hit, hc, (hpayt0 p).symm]
        · simp [hit, hc]
      have he : ∀ i, i < P.modelNSteps →
          (lsmcStep P t st).exerciseDecisionMatrix p i =
            st.exerciseDecisionMatrix p i := by
        intro i _
        simp only [lsmcStep]
        by_cases hit : i = t
        · simp [hit, hc, (hedt0 p).symm]
        · simp [hit, hc]
      rw [rowNonzeroCount_congr hp, rowNonzeroCount_congr he]
      exact h.once p
  · simp only [lsmcStep]
    rw [h.dfs_eq]
    have h1 : min k (P.modelNSteps - 1) = k := by omega
    have h2 : min (k + 1) (P.modelNSteps - 1) = k + 1 := by omega
    have h3 : P.modelNSteps - t - 1 = k + 1 := by omega
    rw [h1, h2, h3, List.range_succ, List.map_append]
    simp

theorem stateOK_stay {P : AmOptionParams K} {sp : ℕ → ℕ → K} {k : ℕ}
    {st : LSMCState K} (hk : P.modelNSteps - 1 ≤ k) (h : StateOK P sp k st) :
    StateOK P sp (k + 1) st := by
  constructor
  · exact h.sp_eq
  · intro p i hi
    exact h.lowZero p i (by omega)
  · exact h.nonneg
  · exact h.edIff
  · exact h.once
  · rw [h.dfs_eq]
    have : min k (P.modelNSteps - 1) = min (k + 1) (P.modelNSteps - 1) := by omega
    rw [this]

theorem stateOK_runUpTo (P : AmOptionParams K) (sp : ℕ → ℕ → K) (spCols : ℕ) :
    ∀ k, StateOK P sp k (runUpTo P sp spCols k)
  | 0 => stateOK_init
  | (k + 1) => by
    rcases Nat.lt_or_ge k (P.modelNSteps - 1) with hk | hk
    · rw [runUpTo_succ_of_lt hk]
      exact stateOK_step hk (stateOK_runUpTo P sp spCols k)
    · rw [runUpTo_succ_of_ge hk]
      exact stateOK_stay hk (stateOK_runUpTo P sp spCols k)

end Invariants

section ValueLemmas

/-- Time-zero discounted value of row `p` of a payoff matrix, i.e. the
contribution of path `p` to the final sum of `priceAmByLSMC` when the two
step counts agree. -/
def rowVal (P : AmOptionParams K) (M : ℕ → ℕ → K) (p : ℕ) : K :=
  ∑ i ∈ Finset.range P.modelNSteps, M p i * P.discStep ^ (i + 1)

/-- Time-zero discounted value of a whole payoff matrix. -/
def totalVal (P : AmOptionParams K) (M : ℕ → ℕ → K) : K :=
  ∑ p ∈ Finset.range P.numberOfPaths, rowVal P M p

theorem v_eq_totalVal {P : AmOptionParams K} {sp : ℕ → ℕ → K} {spCols : ℕ}
    (ho : P.optionNSteps = P.modelNSteps) :
    (priceAmByLSMC P sp spCols).V =
      totalVal P (loopState P sp spCols).payoffMatrix / (P.numberOfPaths : K) := by
  simp only [priceAmByLSMC, totalVal, rowVal]
  congr 1
  refine Finset.sum_congr rfl ?_
  intro p _
  refine Finset.sum_congr rfl ?_
  intro i hi
  have : i < P.optionNSteps := by
    rw [ho]
    exact Finset.mem_range.mp hi
  simp [this]

theorem getD_map_range {n j : ℕ} (hj : j < n) (f : ℕ → K) :
    ((List.range n).map f).getD j 0 = f j := by
  rw [List.getD_eq_getElem?_getD, List.getElem?_map, List.getElem?_range hj]
  rfl

theorem payoff_mul_ed {P : AmOptionParams K} {sp : ℕ → ℕ → K} {k : ℕ}
    {st : LSMCState K} (h : StateOK P sp k st) (p i : ℕ) :
    st.payoffMatrix p i * st.exerciseDecisionMatrix p i = st.payoffMatrix p i := by
  rw [h.edIff p i]
  split
  · rw [mul_one]
  · have h0 : st.payoffMatrix p i = 0 := le_antisymm (by linarith [h.nonneg p i]) (h.nonneg p i)
    rw [h0, zero_mul]

theorem stepDfs_eq {P : AmOptionParams K} {sp : ℕ → ℕ → K} {k : ℕ}
    {st : LSMCState K} (hk : k < P.modelNSteps - 1) (h : StateOK P sp k st) :
    st.discountFactors ++ [P.discStep ^ (P.modelNSteps - (P.modelNSteps - 2 - k) - 1)] =
      (List.range (k + 1)).map (fun j => P.discStep ^ (j + 1)) := by
  rw [h.dfs_eq]
  have h1 : min k (P.modelNSteps - 1) = k := by omega
  have h3 : P.modelNSteps - (P.modelNSteps - 2 - k) - 1 = k + 1 := by omega
  rw [h1, h3, List.range_succ, List.map_append]
  simp

/-- In the state reached after `k` iterations, the one-step-discounted
realized future cash flow of a path, further discounted to time zero,
equals the time-zero value of the later columns of its payoff row. -/
theorem discounted_stepYval {P : AmOptionParams K} {sp : ℕ → ℕ → K} {k : ℕ}
    {st : LSMCState K} (hk : k < P.modelNSteps - 1) (h : StateOK P sp k st)
    (p : ℕ) :
    P.discStep ^ (P.modelNSteps - 2 - k + 1) * stepYval P (P.modelNSteps - 2 - k) st p =
      ∑ i ∈ Finset.Ico (P.modelNSteps - 1 - k) P.modelNSteps,
        st.payoffMatrix p i * P.discStep ^ (i + 1) := by
  set t := P.modelNSteps - 2 - k with htdef
  unfold stepYval
  rw [stepDfs_eq hk h]
  have hlen : ((List.range (k + 1)).map (fun j => P.discStep ^ (j + 1))).length = k + 1 := by
    simp
  rw [hlen]
  have hsum : ∀ j ∈ Finset.range (k + 1),
      st.payoffMatrix p (t + 1 + j) * st.exerciseDecisionMatrix p (t + 1 + j) *
          ((List.range (k + 1)).map (fun j => P.discStep ^ (j + 1))).getD j 0 =
        st.payoffMatrix p (t + 1 + j) * P.discStep ^ (j + 1) := by
    intro j hj
    rw [getD_map_range (Finset.mem_range.mp hj), payoff_mul_ed h]
  rw [Finset.sum_congr rfl hsum, Finset.mul_sum]
  have hab : P.modelNSteps - 1 - k = t + 1 := by omega
  rw [hab]
  rw [Finset.sum_Ico_eq_sum_range]
  have hco : P.modelNSteps - (t + 1) = k + 1 := by omega
  rw [hco]
  refine Finset.sum_congr rfl ?_
  intro j _
  have : t + 1 + j + 1 = t + 1 + (j + 1) := by omega
  rw [this, pow_add]
  ring

theorem rowVal_init {P : AmOptionParams K} {sp : ℕ → ℕ → K} {spCols : ℕ}
    (hm : 1 ≤ P.modelNSteps) (p : ℕ) :
    rowVal P (initState P sp spCols).payoffMatrix p =
      payOff P (sp p (spCols - 1)) * P.discStep ^ P.modelNSteps := by
  unfold rowVal initState
  rw [Finset.sum_eq_single_of_mem (P.modelNSteps - 1)
    (Finset.mem_range.mpr (by omega))]
  · have hmm : P.modelNSteps - 1 + 1 = P.modelNSteps := by omega
    simp [hmm]
  · intro i _ hit
    simp [hit]

theorem totalVal_init {P : AmOptionParams K} {sp : ℕ → ℕ → K} {spCols : ℕ}
    (hm : 1 ≤ P.modelNSteps) :
    totalVal P (initState P sp spCols).payoffMatrix =
      ∑ p ∈ Finset.range P.numberOfPaths,
        payOff P (sp p (spCols - 1)) * P.discStep ^ P.modelNSteps := by
  unfold totalVal
  exact Finset.sum_congr rfl (fun p _ => rowVal_init hm p)

theorem rowVal_step_of_not_cond {P : AmOptionParams K} {sp : ℕ → ℕ → K} {k : ℕ}
    {st : LSMCState K} (hk : k < P.modelNSteps - 1) (h : StateOK P sp k st)
    {p : ℕ} (hc : ¬ stepCond P (P.modelNSteps - 2 - k) st p) :
    rowVal P (lsmcStep P (P.modelNSteps - 2 - k) st).payoffMatrix p =
      rowVal P st.payoffMatrix p := by
  set t := P.modelNSteps - 2 - k with htdef
  unfold rowVal
  refine Finset.sum_congr rfl ?_
  intro i _
  congr 1
  simp only [lsmcStep]
  by_cases hit : i = t
  · rw [hit]
    simp only [if_pos rfl, hc, if_false]
    exact ((h.lowZero p t (by omega)).1).symm
  · simp [hit, hc]

theorem rowVal_step_of_cond {P : AmOptionParams K} {sp : ℕ → ℕ → K} {k : ℕ}
    {st : LSMCState K} (hk : k < P.modelNSteps - 1) (h : StateOK P sp k st)
    {p : ℕ} (hc : stepCond P (P.modelNSteps - 2 - k) st p) :
    rowVal P (lsmcStep P (P.modelNSteps - 2 - k) st).payoffMatrix p =
      payOff P (st.samplePaths p (P.modelNSteps - 2 - k + 1)) *
        P.discStep ^ (P.modelNSteps - 2 - k + 1) := by
  set t := P.modelNSteps - 2 - k with htdef
  unfold rowVal
  rw [Finset.sum_eq_single_of_mem t (Finset.mem_range.mpr (by omega))]
  · simp [lsmcStep, hc]
  · intro i _ hit
    simp only [lsmcStep, hit, if_false]
    rcases Nat.lt_or_ge t i with hti | hti
    · simp [hti, hc]
    · have h1 : ¬ t < i := by omega
      simp only [h1, false_and, if_false]
      rw [(h.lowZero p i (by omega)).1, zero_mul]

theorem rowVal_old_of_cond {P : AmOptionParams K} {sp : ℕ → ℕ → K} {k : ℕ}
    {st : LSMCState K} (hk : k < P.modelNSteps - 1) (h : StateOK P sp k st)
    (p : ℕ) :
    rowVal P st.payoffMatrix p =
      P.discStep ^ (P.modelNSteps - 2 - k + 1) *
        stepYval P (P.modelNSteps - 2 - k) st p := by
  rw [discounted_stepYval hk h]
  unfold rowVal
  rw [Finset.range_eq_Ico,
    ← Finset.sum_Ico_consecutive _ (Nat.zero_le (P.modelNSteps - 1 - k)) (by omega)]
  have hzero : ∀ i ∈ Finset.Ico 0 (P.modelNSteps - 1 - k),
      st.payoffMatrix p i * P.discStep ^ (i + 1) = 0 := by
    intro i hi
    rw [(h.lowZero p i (by
      have := (Finset.mem_Ico.mp hi).2
      omega)).1, zero_mul]
  rw [Finset.sum_congr rfl hzero]
  simp

end ValueLemmas

/-- Claim C1 (exercise-once invariant): after the terminal-column
initialisation (`k = 0`) and after each iteration of the backward loop of
`priceAmByLSMC`, every row of the payoff matrix and of the exercise-decision
matrix has at most one nonzero entry among its `modelNSteps` columns. -/
theorem c1_exercise_once (P : AmOptionParams K) (sp : ℕ → ℕ → K)
    (spCols : ℕ) : ∀ k p,
    rowNonzeroCount (runUpTo P sp spCols k).payoffMatrix P.modelNSteps p ≤ 1 ∧
      rowNonzeroCount (runUpTo P sp spCols k).exerciseDecisionMatrix
        P.modelNSteps p ≤ 1 :=
  fun k p => (stateOK_runUpTo P sp spCols k).once p

/-- Claim C2 (exercise decision rule): in each backward-loop iteration a
path is marked as exercising exactly when its immediate intrinsic payoff
strictly exceeds the fitted continuation value (evaluated at every path's
price, via the coefficients returned by `regressionFunction`) and the
intrinsic payoff is strictly positive; on exercise the payoff column keeps
the intrinsic payoff, the indicator is set to `1`, and all later columns of
that row are zeroed; on no-exercise both column-`t` entries are set to `0`
and the later columns are left untouched. -/
theorem c2_decision_rule (P : AmOptionParams K) (t : ℕ) (st : LSMCState K)
    (p : ℕ) :
    (stepCond P t st p ↔
      payOff P (st.samplePaths p (t + 1)) >
          getContinuationValue
            (regressionFunction P (subCols st.payoffMatrix (t + 1))
              (subCols st.samplePaths (t + 1))
              (subCols st.exerciseDecisionMatrix (t + 1))
              (st.discountFactors ++ [P.discStep ^ (P.modelNSteps - t - 1)]))
            (st.samplePaths p (t + 1)) ∧
        payOff P (st.samplePaths p (t + 1)) > 0) ∧
    (stepCond P t st p →
      (lsmcStep P t st).payoffMatrix p t = payOff P (st.samplePaths p (t + 1)) ∧
        (lsmcStep P t st).exerciseDecisionMatrix p t = 1 ∧
        ∀ i, t < i → (lsmcStep P t st).payoffMatrix p i = 0 ∧
          (lsmcStep P t st).exerciseDecisionMatrix p i = 0) ∧
    (¬ stepCond P t st p →
      (lsmcStep P t st).payoffMatrix p t = 0 ∧
        (lsmcStep P t st).exerciseDecisionMatrix p t = 0 ∧
        ∀ i, t < i → (lsmcStep P t st).payoffMatrix p i = st.payoffMatrix p i ∧
          (lsmcStep P t st).exerciseDecisionMatrix p i =
            st.exerciseDecisionMatrix p i) := by
  refine ⟨Iff.rfl, ?_, ?_⟩
  · intro hc
    refine ⟨by simp [lsmcStep, hc], by simp [lsmcStep, hc], ?_⟩
    intro i hti
    have hit : i ≠ t := by omega
    simp [lsmcStep, hit, hti, hc]
  · intro hc
    refine ⟨by simp [lsmcStep, hc], by simp [lsmcStep, hc], ?_⟩
    intro i hti
    have hit : i ≠ t := by omega
    simp [lsmcStep, hit, hc]

/-- Claim C5 (finalization formula): when the two recorded step counts
agree, the price returned by `priceAmByLSMC` is the sum, over all paths `p`
and all columns `i` of the payoff matrix left by the backward loop, of
`payoffMatrix[p, i] * discStep ^ (i + 1)`, divided by the number of paths. -/
theorem c5_finalization (P : AmOptionParams K) (sp : ℕ → ℕ → K) (spCols : ℕ)
    (ho : P.optionNSteps = P.modelNSteps) :
    (priceAmByLSMC P sp spCols).V =
      (∑ p ∈ Finset.range P.numberOfPaths, ∑ i ∈ Finset.range P.modelNSteps,
          (loopState P sp spCols).payoffMatrix p i * P.discStep ^ (i + 1)) /
        (P.numberOfPaths : K) :=
  v_eq_totalVal ho

/-- Claim C9 (sample paths are read-only): the sample-path matrix component
of the state is unchanged by the terminal initialisation, by every backward
iteration, and hence by the whole loop. -/
theorem c9_samplePaths_readonly (P : AmOptionParams K) (sp : ℕ → ℕ → K)
    (spCols : ℕ) :
    (∀ k, (runUpTo P sp spCols k).samplePaths = sp) ∧
      (loopState P sp spCols).samplePaths = sp := by
  refine ⟨fun k => (stateOK_runUpTo P sp spCols k).sp_eq, ?_⟩
  rw [loopState_eq_runUpTo]
  exact (stateOK_runUpTo P sp spCols _).sp_eq

/-- Claim C10 (no-early-exercise degeneration): if the exercise condition
fails for every path at every backward step, the LSMC price equals the
European put Monte-Carlo price obtained by discounting only the terminal
payoffs, as `priceByBSMC` computes it with `discT = discStep ^ nSteps`
(i.e. `exp (-r * T)` with `T = nSteps * dt`). -/
theorem c10_no_exercise_european (P : AmOptionParams K) (sp : ℕ → ℕ → K)
    (spCols : ℕ) (hm : 1 ≤ P.modelNSteps) (ho : P.optionNSteps = P.modelNSteps)
    (hnoex : ∀ k, k < P.modelNSteps - 1 → ∀ p, p < P.numberOfPaths →
      ¬ stepCond P (P.modelNSteps - 2 - k) (runUpTo P sp spCols k) p) :
    (priceAmByLSMC P sp spCols).V =
      priceByBSMC P.strike (P.discStep ^ P.modelNSteps) P.numberOfPaths sp
        spCols := by
  have hpres : ∀ k, ∀ p, p < P.numberOfPaths → ∀ i,
      (runUpTo P sp spCols k).payoffMatrix p i =
        (initState P sp spCols).payoffMatrix p i := by
    intro k
    induction k with
    | zero => intro p _ i; rfl
    | succ k ih =>
      rcases Nat.lt_or_ge k (P.modelNSteps - 1) with hk | hk
      · intro p hp i
        rw [runUpTo_succ_of_lt hk]
        have hc := hnoex k hk p hp
        set t := P.modelNSteps - 2 - k with htdef
        simp only [lsmcStep]
        by_cases hit : i = t
        · rw [hit]
          simp only [if_pos rfl, hc, if_false]
          have hne : t ≠ P.modelNSteps - 1 := by omega
          simp [initState, hne]
        · simp only [hit, if_false, hc, and_false, if_false]
          exact ih p hp i
      · intro p hp i
        rw [runUpTo_succ_of_ge hk]
        exact ih p hp i
  rw [v_eq_totalVal ho]
  have htv : totalVal P (loopState P sp spCols).payoffMatrix =
      totalVal P (initState P sp spCols).payoffMatrix := by
    unfold totalVal rowVal
    refine Finset.sum_congr rfl ?_
    intro p hp
    refine Finset.sum_congr rfl ?_
    intro i _
    rw [loopState_eq_runUpTo, hpres _ p (Finset.mem_range.mp hp) i]
  rw [htv, totalVal_init hm]
  unfold priceByBSMC payOff
  rfl

/-- Amended claim C7: the American LSMC price is at least the European price
of the same paths provided that, at every backward step, every path the code
marks as exercising has immediate intrinsic payoff at least as large as its
realized discounted future cash flow (the regression's `Y` value).  The
regression can underestimate the continuation value, so without this
proviso a path may give up a large terminal payoff for a small immediate
one and the inequality can fail (see the counterexample). -/
theorem c7_amended_premium_nonneg (P : AmOptionParams K) (sp : ℕ → ℕ → K)
    (spCols : ℕ) (hd : 0 ≤ P.discStep) (hm : 1 ≤ P.modelNSteps)
    (ho : P.optionNSteps = P.modelNSteps)
    (hsafe : ∀ k, k < P.modelNSteps - 1 → ∀ p, p < P.numberOfPaths →
      stepCond P (P.modelNSteps - 2 - k) (runUpTo P sp spCols k) p →
      stepYval P (P.modelNSteps - 2 - k) (runUpTo P sp spCols k) p ≤
        payOff P (sp p (P.modelNSteps - 2 - k + 1))) :
    priceByBSMC P.strike (P.discStep ^ P.modelNSteps) P.numberOfPaths sp
        spCols ≤ (priceAmByLSMC P sp spCols).V := by
  have key : ∀ k, totalVal P (initState P sp spCols).payoffMatrix ≤
      totalVal P (runUpTo P sp spCols k).payoffMatrix := by
    intro k
    induction k with
    | zero => exact le_rfl
    | succ k ih =>
      rcases Nat.lt_or_ge k (P.modelNSteps - 1) with hk | hk
      · rw [runUpTo_succ_of_lt hk]
        refine le_trans ih ?_
        have hOK := stateOK_runUpTo P sp spCols k
        unfold totalVal
        refine Finset.sum_le_sum ?_
        intro p hp
        by_cases hc : stepCond P (P.modelNSteps - 2 - k) (runUpTo P sp spCols k) p
        · rw [rowVal_step_of_cond hk hOK hc, rowVal_old_of_cond hk hOK p]
          have hY := hsafe k hk p (Finset.mem_range.mp hp) hc
          rw [hOK.sp_eq,
            mul_comm (payOff P (sp p (P.modelNSteps - 2 - k + 1)))
              (P.discStep ^ (P.modelNSteps - 2 - k + 1))]
          exact mul_le_mul_of_nonneg_left hY (pow_nonneg hd _)
        · rw [rowVal_step_of_not_cond hk hOK hc]
      · rw [runUpTo_succ_of_ge hk]
        exact ih
  rw [v_eq_totalVal ho]
  rcases Nat.eq_zero_or_pos P.numberOfPaths with hn | hn
  · simp [priceByBSMC, totalVal, hn]
  · have h2 := key (P.modelNSteps - 1)
    rw [← loopState_eq_runUpTo, totalVal_init hm] at h2
    have hcpos : (0 : K) < (P.numberOfPaths : K) := by exact_mod_cast hn
    unfold priceByBSMC
    refine (div_le_div_iff_of_pos_right hcpos).mpr ?_
    exact h2

/-- The pricing parameters of the adversarial four-path counterexample to
claim C7: strike 10, two steps, per-step discount factor `1/2`. -/
def c7exP : AmOptionParams ℚ := ⟨10, 2, 2, 4, 1/2⟩

/-- The adversarial sample paths: all four paths are in the money at the
decision date with prices 6, 7, 8, 9; the quadratic fit at price 7
underestimates that path's realized cash flow, so the code exercises it and
gives up a larger discounted terminal payoff. -/
def c7exSP : ℕ → ℕ → ℚ := fun p i =>
  ([[10, 6, 2], [10, 7, 18/5], [10, 8, 22/5], [10, 9, 2/5]].getD p []).getD i 0

theorem c7ex_model : stepModel c7exP 0 (initState c7exP c7exSP 3) =
    (407/10, -103/10, 7/10) := by
  norm_num [stepModel, regressionFunction, regressionData, olsFit3, subCols,
    initState, payOff, sumPow, sumYX, det3, groupMeanY, c7exP, c7exSP,
    List.range_succ, Finset.sum_range_succ]

theorem c7ex_cond1 : stepCond c7exP 0 (initState c7exP c7exSP 3) 1 := by
  unfold stepCond
  rw [c7ex_model]
  norm_num [getContinuationValue, payOff, initState, c7exP, c7exSP]

theorem c7ex_condsF : ∀ p ∈ ({0, 2, 3} : Finset ℕ),
    ¬ stepCond c7exP 0 (initState c7exP c7exSP 3) p := by
  intro p hp
  unfold stepCond
  rw [c7ex_model]
  fin_cases hp <;>
    norm_num [getContinuationValue, payOff, initState, c7exP, c7exSP]

/-- Counterexample to claim C7 as stated: on this four-path matrix the
American price returned by `priceAmByLSMC` is `73/40 = 1.825`, strictly
below the European price `37/20 = 1.85` obtained by discounting only the
terminal payoffs of the same paths. -/
theorem c7_counterexample :
    (priceAmByLSMC c7exP c7exSP 3).V <
      priceByBSMC c7exP.strike (c7exP.discStep ^ c7exP.modelNSteps)
        c7exP.numberOfPaths c7exSP 3 := by
  have h0 := c7ex_condsF 0 (by norm_num)
  have h2 := c7ex_condsF 2 (by norm_num)
  have h3 := c7ex_condsF 3 (by norm_num)
  have h1 := c7ex_cond1
  have hV : (priceAmByLSMC c7exP c7exSP 3).V = 73/40 := by
    norm_num [priceAmByLSMC, loopState, stepTimes, lsmcStep,
      eq_false h0, eq_true h1, eq_false h2, eq_false h3,
      List.range_succ, Finset.sum_range_succ,
      show c7exP.modelNSteps = 2 from rfl, show c7exP.optionNSteps = 2 from rfl,
      show c7exP.numberOfPaths = 4 from rfl]
    norm_num [initState, payOff, c7exP, c7exSP]
  have hE : priceByBSMC c7exP.strike (c7exP.discStep ^ c7exP.modelNSteps)
      c7exP.numberOfPaths c7exSP 3 = 37/20 := by
    norm_num [priceByBSMC, c7exP, c7exSP, Finset.sum_range_succ]
  rw [hV, hE]
  norm_num

/-- The parameters of the degenerate-regression example for claim C4. -/
def c4exP : AmOptionParams ℚ := ⟨10, 2, 2, 3, 1/2⟩

/-- Three paths of which exactly two are in the money at the decision date
(prices 8 and 9), so the regression system over `{1, X, X^2}` is
under-determined there. -/
def c4exSP : ℕ → ℕ → ℚ := fun p i =>
  ([[10, 8, 2], [10, 9, 20], [10, 20, 20]].getD p []).getD i 0

theorem c4ex_model : stepModel c4exP 0 (initState c4exP c4exSP 3) =
    (396/391, 98/23, -190/391) := by
  norm_num [stepModel, regressionFunction, regressionData, olsFit3, subCols,
    initState, payOff, sumPow, sumYX, det3, groupMeanY, c4exP, c4exSP,
    List.dedup_cons_of_not_mem, List.range_succ, Finset.sum_range_succ]

/-- Counterexample to claim C4 as stated: at a step with exactly two
in-the-money paths the code does not skip the regression and does not treat
the continuation value as `0` — it runs the pseudo-inverse least-squares
fit, whose continuation value at the in-the-money price 8 is `4`, and
consequently path 0, whose intrinsic payoff 2 is strictly positive (so the
claimed continuation-value-0 policy would exercise it), is not exercised. -/
theorem c4_counterexample :
    (stepDataAt c4exP c4exSP 3 0).length = 2 ∧
      getContinuationValue (stepModel c4exP 0 (initState c4exP c4exSP 3))
          (c4exSP 0 1) = 4 ∧
      payOff c4exP (c4exSP 0 1) > 0 ∧
      (runUpTo c4exP c4exSP 3 1).payoffMatrix 0 0 = 0 ∧
      (runUpTo c4exP c4exSP 3 1).exerciseDecisionMatrix 0 0 = 0 := by
  have hlen : (stepDataAt c4exP c4exSP 3 0).length = 2 := by
    norm_num [stepDataAt, regressionData, subCols, runUpTo_zero, initState,
      payOff, c4exP, c4exSP, List.range_succ]
  have hcont : getContinuationValue (stepModel c4exP 0 (initState c4exP c4exSP 3))
      (c4exSP 0 1) = 4 := by
    rw [c4ex_model]
    norm_num [getContinuationValue, c4exSP]
  have hc0 : ¬ stepCond c4exP 0 (initState c4exP c4exSP 3) 0 := by
    unfold stepCond
    rw [c4ex_model]
    norm_num [getContinuationValue, payOff, initState, c4exP, c4exSP]
  have hrun : runUpTo c4exP c4exSP 3 1 =
      lsmcStep c4exP 0 (initState c4exP c4exSP 3) :=
    runUpTo_succ_of_lt (by norm_num [c4exP])
  refine ⟨hlen, hcont, by norm_num [payOff, c4exP, c4exSP], ?_, ?_⟩
  · rw [hrun]
    simp [lsmcStep, hc0]
  · rw [hrun]
    simp [lsmcStep, hc0]

/-- Amended claim C4: the code performs no explicit degenerate-case check;
the regression is invoked unconditionally, and with exactly two
in-the-money paths at distinct prices whose squares also differ (so that
`sm.add_constant` does add the intercept and the pseudo-inverse fit
completes) the fitted continuation value interpolates the two realized
discounted cash flows (so it is the path's own `Y`, not `0`); in the
remaining two-path case, prices `x` and `-x`, the run raises `KeyError`
rather than treating the continuation value as `0`. -/
theorem c4_amended_degenerate_interpolates (x1 x2 y1 y2 : K) (hx : x1 ≠ x2)
    (hs : x1 + x2 ≠ 0) :
    getContinuationValue (olsFit3 [(x1, y1), (x2, y2)]) x1 = y1 ∧
      getContinuationValue (olsFit3 [(x1, y1), (x2, y2)]) x2 = y2 := by
  have hsq : x1 ^ 2 ≠ x2 ^ 2 := by
    intro h
    have h2 : (x1 - x2) * (x1 + x2) = 0 := by linear_combination h
    exact absurd h2 (mul_ne_zero (sub_ne_zero.mpr hx) hs)
  have hded : (([(x1, y1), (x2, y2)] : List (K × K)).map (fun q => q.1)).dedup =
      [x1, x2] := by
    rw [List.map_cons, List.map_cons, List.map_nil]
    rw [List.dedup_cons_of_not_mem (by simp [hx])]
    simp
  have hgram : det3 (sumPow [(x1, y1), (x2, y2)] 0) (sumPow [(x1, y1), (x2, y2)] 1)
      (sumPow [(x1, y1), (x2, y2)] 2) (sumPow [(x1, y1), (x2, y2)] 1)
      (sumPow [(x1, y1), (x2, y2)] 2) (sumPow [(x1, y1), (x2, y2)] 3)
      (sumPow [(x1, y1), (x2, y2)] 2) (sumPow [(x1, y1), (x2, y2)] 3)
      (sumPow [(x1, y1), (x2, y2)] 4) = 0 := by
    simp only [sumPow, det3, List.map_cons, List.map_nil, List.sum_cons,
      List.sum_nil]
    ring
  have hm1 : groupMeanY [(x1, y1), (x2, y2)] x1 = y1 := by
    simp [groupMeanY, List.filter_cons, hx.symm]
  have hm2 : groupMeanY [(x1, y1), (x2, y2)] x2 = y2 := by
    simp [groupMeanY, List.filter_cons, hx]
  have hdD : (1 + x1 ^ 2 + x1 ^ 4) * (1 + x2 ^ 2 + x2 ^ 4) -
      (1 + x1 * x2 + (x1 * x2) ^ 2) ^ 2 =
        (x2 - x1) ^ 2 * (1 + (x1 + x2) ^ 2 + (x1 * x2) ^ 2) := by
    ring
  have hdD0 : (1 + x1 ^ 2 + x1 ^ 4) * (1 + x2 ^ 2 + x2 ^ 4) -
      (1 + x1 * x2 + (x1 * x2) ^ 2) * (1 + x1 * x2 + (x1 * x2) ^ 2) ≠ 0 := by
    have : (1 + x1 * x2 + (x1 * x2) ^ 2) * (1 + x1 * x2 + (x1 * x2) ^ 2) =
        (1 + x1 * x2 + (x1 * x2) ^ 2) ^ 2 := by ring
    rw [this, hdD]
    refine mul_ne_zero (pow_ne_zero 2 (sub_ne_zero.mpr (Ne.symm hx))) ?_
    positivity
  simp only [olsFit3, hded]
  rw [if_pos hgram, if_neg hsq]
  simp only [hm1, hm2, getContinuationValue]
  constructor
  · field_simp
    ring
  · field_simp
    ring

/-- Shape-checked run of the C8 counterexample: parameters declare 2 steps
(`3` columns expected) but the supplied matrix has 4 columns. -/
def c8exP : AmOptionParams ℚ := ⟨10, 2, 2, 3, 1/2⟩

/-- A 3-by-4 sample-path matrix handed to a pricer whose parameters expect
3 columns. -/
def c8exSP : ℕ → ℕ → ℚ := fun p i =>
  ([[10, 7, 8, 3], [10, 6, 2, 9], [10, 5, 1, 1]].getD p []).getD i 0

theorem c8ex_model : stepModel c8exP 0 (initState c8exP c8exSP 4) =
    (259/2, -85/2, 7/2) := by
  norm_num [stepModel, regressionFunction, regressionData, olsFit3, subCols,
    initState, payOff, sumPow, sumYX, det3, groupMeanY, c8exP, c8exSP,
    List.range_succ, Finset.sum_range_succ]

theorem c8ex_conds :
    ¬ stepCond c8exP 0 (initState c8exP c8exSP 4) 0 ∧
      stepCond c8exP 0 (initState c8exP c8exSP 4) 1 ∧
      stepCond c8exP 0 (initState c8exP c8exSP 4) 2 := by
  refine ⟨?_, ?_, ?_⟩ <;>
    (unfold stepCond
     rw [c8ex_model]
     norm_num [getContinuationValue, payOff, initState, c8exP, c8exSP])

/-- Counterexample to claim C8 as stated: with a step count inconsistent
with the matrix shape (4 columns supplied, `nSteps + 1 = 3` expected), the
computation does not fail at all — the checked model runs to completion,
the regression included, and returns a price. -/
theorem c8_counterexample :
    4 ≠ c8exP.modelNSteps + 1 ∧
      priceAmByLSMCChecked c8exP c8exSP 3 4 = some (25/12) := by
  refine ⟨by norm_num [c8exP], ?_⟩
  have hV : (priceAmByLSMC c8exP c8exSP 4).V = 25/12 := by
    have h0 := c8ex_conds.1
    have h1 := c8ex_conds.2.1
    have h2 := c8ex_conds.2.2
    norm_num [priceAmByLSMC, loopState, stepTimes, lsmcStep,
      eq_false h0, eq_true h1, eq_true h2,
      List.range_succ, Finset.sum_range_succ,
      show c8exP.modelNSteps = 2 from rfl, show c8exP.optionNSteps = 2 from rfl,
      show c8exP.numberOfPaths = 3 from rfl]
    norm_num [initState, payOff, c8exP, c8exSP]
  have hdeg : ¬ (List.range (c8exP.modelNSteps - 1)).any
      (fun k => regressionRaises (stepDataAt c8exP c8exSP 4 k)) = true := by
    norm_num [regressionRaises, stepDataAt, regressionData, subCols,
      runUpTo_zero, initState, payOff, c8exP, c8exSP, List.range_succ,
      List.dedup_cons_of_not_mem]
  unfold priceAmByLSMCChecked
  rw [if_neg (by norm_num), if_neg (by norm_num [c8exP]),
    if_neg (by norm_num [c8exP]), if_neg (by norm_num [c8exP]),
    if_neg (by norm_num [c8exP]), if_neg hdeg,
    if_neg (by norm_num [c8exP]), hV]

/-- Amended claim C8: a path-count mismatch with more than one supplied row
does fail before any regression (the terminal-column assignment raises a
broadcast error; a single-row matrix instead broadcasts and fails later, or
even completes when `modelNSteps = 1`), but a step-count mismatch is not
detected: as long as the columns the loop reads exist, the computation runs
to completion on the matrix's own columns (see the counterexample). -/
theorem c8_amended_path_mismatch (P : AmOptionParams K) (sp : ℕ → ℕ → K)
    (spRows spCols : ℕ) (h0 : spCols ≠ 0) (h1 : P.modelNSteps ≠ 0)
    (h2 : spRows ≠ P.numberOfPaths) (h3 : spRows ≠ 1) :
    priceAmByLSMCChecked P sp spRows spCols = none := by
  unfold priceAmByLSMCChecked
  rw [if_neg h0, if_neg h1, if_pos ⟨h2, h3⟩]

section LeastSquares

theorem sum_map_split {α : Type} (l : List α) (f g h : α → K)
    (hpt : ∀ a ∈ l, f a = g a + h a) :
    (l.map f).sum = (l.map g).sum + (l.map h).sum := by
  induction l with
  | nil => simp
  | cons a l ih =>
    simp only [List.map_cons, List.sum_cons]
    rw [hpt a (by simp), ih (fun b hb => hpt b (by simp [hb]))]
    ring

theorem sumPow_cons (a : K × K) (l : List (K × K)) (k : ℕ) :
    sumPow (a :: l) k = a.1 ^ k + sumPow l k := by
  simp [sumPow]

theorem sumYX_cons (a : K × K) (l : List (K × K)) (k : ℕ) :
    sumYX (a :: l) k = a.2 * a.1 ^ k + sumYX l k := by
  simp [sumYX]

theorem resid_sum (data : List (K × K)) (b1 b2 b3 : K) (k : ℕ) :
    (data.map (fun q => (q.2 - (b1 + b2 * q.1 + b3 * q.1 ^ 2)) * q.1 ^ k)).sum =
      sumYX data k - (b1 * sumPow data k + b2 * sumPow data (k + 1) +
        b3 * sumPow data (k + 2)) := by
  induction data with
  | nil => simp [sumYX, sumPow]
  | cons a l ih =>
    simp only [List.map_cons, List.sum_cons, sumPow_cons, sumYX_cons]
    rw [ih]
    ring

theorem resid_dot (data : List (K × K)) (b1 b2 b3 d1 d2 d3 : K) :
    (data.map (fun q => (q.2 - (b1 + b2 * q.1 + b3 * q.1 ^ 2)) *
        (d1 + d2 * q.1 + d3 * q.1 ^ 2))).sum =
      d1 * (data.map (fun q =>
          (q.2 - (b1 + b2 * q.1 + b3 * q.1 ^ 2)) * q.1 ^ 0)).sum +
        d2 * (data.map (fun q =>
          (q.2 - (b1 + b2 * q.1 + b3 * q.1 ^ 2)) * q.1 ^ 1)).sum +
        d3 * (data.map (fun q =>
          (q.2 - (b1 + b2 * q.1 + b3 * q.1 ^ 2)) * q.1 ^ 2)).sum := by
  induction data with
  | nil => simp
  | cons a l ih =>
    simp only [List.map_cons, List.sum_cons]
    rw [ih]
    ring

/-- A parameter triple satisfying the normal equations of the quadratic
design is a global minimiser of the residual sum of squares. -/
theorem sse_ge_of_normal (data : List (K × K)) (β : K × K × K)
    (h0 : sumYX data 0 = β.1 * sumPow data 0 + β.2.1 * sumPow data 1 +
      β.2.2 * sumPow data 2)
    (h1 : sumYX data 1 = β.1 * sumPow data 1 + β.2.1 * sumPow data 2 +
      β.2.2 * sumPow data 3)
    (h2 : sumYX data 2 = β.1 * sumPow data 2 + β.2.1 * sumPow data 3 +
      β.2.2 * sumPow data 4)
    (γ : K × K × K) : sse data β ≤ sse data γ := by
  obtain ⟨b1, b2, b3⟩ := β
  obtain ⟨c1, c2, c3⟩ := γ
  simp only at h0 h1 h2
  have hz0 : (data.map (fun q =>
      (q.2 - (b1 + b2 * q.1 + b3 * q.1 ^ 2)) * q.1 ^ 0)).sum = 0 := by
    rw [resid_sum, h0]
    ring
  have hz1 : (data.map (fun q =>
      (q.2 - (b1 + b2 * q.1 + b3 * q.1 ^ 2)) * q.1 ^ 1)).sum = 0 := by
    rw [resid_sum, h1]
    ring
  have hz2 : (data.map (fun q =>
      (q.2 - (b1 + b2 * q.1 + b3 * q.1 ^ 2)) * q.1 ^ 2)).sum = 0 := by
    rw [resid_sum, h2]
    ring
  have hsplit1 : sse data (c1, c2, c3) = sse data (b1, b2, b3) +
      (data.map (fun q =>
        (((b1 - c1) + (b2 - c2) * q.1 + (b3 - c3) * q.1 ^ 2) ^ 2) +
          (q.2 - (b1 + b2 * q.1 + b3 * q.1 ^ 2)) *
            (2 * (b1 - c1) + 2 * (b2 - c2) * q.1 + 2 * (b3 - c3) * q.1 ^ 2))).sum := by
    unfold sse
    refine sum_map_split data _ _ _ ?_
    intro a _
    ring
  have hsplit2 : (data.map (fun q =>
      (((b1 - c1) + (b2 - c2) * q.1 + (b3 - c3) * q.1 ^ 2) ^ 2) +
        (q.2 - (b1 + b2 * q.1 + b3 * q.1 ^ 2)) *
          (2 * (b1 - c1) + 2 * (b2 - c2) * q.1 + 2 * (b3 - c3) * q.1 ^ 2))).sum =
      (data.map (fun q =>
        ((b1 - c1) + (b2 - c2) * q.1 + (b3 - c3) * q.1 ^ 2) ^ 2)).sum +
      (data.map (fun q =>
        (q.2 - (b1 + b2 * q.1 + b3 * q.1 ^ 2)) *
          (2 * (b1 - c1) + 2 * (b2 - c2) * q.1 + 2 * (b3 - c3) * q.1 ^ 2))).sum := by
    refine sum_map_split data _ _ _ ?_
    intro a _
    rfl
  have hcross : (data.map (fun q =>
      (q.2 - (b1 + b2 * q.1 + b3 * q.1 ^ 2)) *
        (2 * (b1 - c1) + 2 * (b2 - c2) * q.1 + 2 * (b3 - c3) * q.1 ^ 2))).sum = 0 := by
    rw [resid_dot data b1 b2 b3 (2 * (b1 - c1)) (2 * (b2 - c2)) (2 * (b3 - c3)),
      hz0, hz1, hz2]
    ring
  have hnn : 0 ≤ (data.map (fun q =>
      ((b1 - c1) + (b2 - c2) * q.1 + (b3 - c3) * q.1 ^ 2) ^ 2)).sum := by
    refine List.sum_nonneg ?_
    intro x hx
    obtain ⟨q, _, rfl⟩ := List.mem_map.mp hx
    positivity
  linarith [hsplit1, hsplit2, hcross, hnn]

/-- When the Gram matrix of the in-the-money data is invertible, the
coefficients computed by `olsFit3` satisfy the normal equations. -/
theorem olsFit3_normal (data : List (K × K)) (hd : gramDet data ≠ 0) :
    sumYX data 0 = (olsFit3 data).1 * sumPow data 0 +
        (olsFit3 data).2.1 * sumPow data 1 +
        (olsFit3 data).2.2 * sumPow data 2 ∧
      sumYX data 1 = (olsFit3 data).1 * sumPow data 1 +
        (olsFit3 data).2.1 * sumPow data 2 +
        (olsFit3 data).2.2 * sumPow data 3 ∧
      sumYX data 2 = (olsFit3 data).1 * sumPow data 2 +
        (olsFit3 data).2.1 * sumPow data 3 +
        (olsFit3 data).2.2 * sumPow data 4 := by
  have hd' : ¬ (det3 (sumPow data 0) (sumPow data 1) (sumPow data 2)
      (sumPow data 1) (sumPow data 2) (sumPow data 3) (sumPow data 2)
      (sumPow data 3) (sumPow data 4) = 0) := by
    simpa [gramDet] using hd
  simp only [olsFit3, if_neg hd']
  refine ⟨?_, ?_, ?_⟩ <;>
    (field_simp
     simp only [det3]
     ring)

/-- The fitted coefficients depend only on the in-the-money rows: replacing
the payoff and indicator entries of any out-of-the-money path changes
nothing. -/
theorem regressionData_congr (P : AmOptionParams K)
    (M M' S E E' : ℕ → ℕ → K) (dfs : List K)
    (hrows : ∀ p, p < P.numberOfPaths → S p 0 < P.strike →
      (∀ j, M' p j = M p j) ∧ (∀ j, E' p j = E p j)) :
    regressionData P M' S E' dfs = regressionData P M S E dfs := by
  unfold regressionData
  refine List.map_congr_left ?_
  intro p hp
  have hmem := List.mem_filter.mp hp
  have hpn : p < P.numberOfPaths := List.mem_range.mp hmem.1
  have hitm : S p 0 < P.strike := by
    simpa using hmem.2
  obtain ⟨hM, hE⟩ := hrows p hpn hitm
  refine congrArg (Prod.mk (S p 0)) ?_
  refine Finset.sum_congr rfl ?_
  intro j _
  rw [hM j, hE j]

end LeastSquares

theorem stepYval_run {P : AmOptionParams K} {sp : ℕ → ℕ → K} {spCols k : ℕ}
    (hk : k < P.modelNSteps - 1) (p : ℕ) :
    stepYval P (P.modelNSteps - 2 - k) (runUpTo P sp spCols k) p =
      ∑ i ∈ Finset.Ico (P.modelNSteps - 1 - k) P.modelNSteps,
        (runUpTo P sp spCols k).payoffMatrix p i *
          (runUpTo P sp spCols k).exerciseDecisionMatrix p i *
          P.discStep ^ (i - (P.modelNSteps - 2 - k)) := by
  have h := stateOK_runUpTo P sp spCols k
  set st := runUpTo P sp spCols k with hstdef
  set t := P.modelNSteps - 2 - k with htdef
  unfold stepYval
  rw [stepDfs_eq hk h]
  have hlen : ((List.range (k + 1)).map (fun j => P.discStep ^ (j + 1))).length = k + 1 := by
    simp
  rw [hlen]
  have hab : P.modelNSteps - 1 - k = t + 1 := by omega
  rw [hab, Finset.sum_Ico_eq_sum_range]
  have hco : P.modelNSteps - (t + 1) = k + 1 := by omega
  rw [hco]
  refine Finset.sum_congr rfl ?_
  intro j hj
  rw [getD_map_range (Finset.mem_range.mp hj)]
  have hexp : t + 1 + j - t = j + 1 := by omega
  rw [hexp]

/-- Claim C3 (regression construction): at backward iteration `k`
(processing time index `nSteps - 2 - k`, whose decision column of the
sample-path matrix is column `nSteps - 1 - k`), (a) the regression data
consists exactly of the paths whose decision-column price is below the
strike, with `X` that price and `Y` the sum over the later payoff columns
of `payoff * exerciseIndicator * discStep ^ (s - t)`; (b) the returned
coefficients minimise the residual sum of squares of the model
`Y ≈ a + b X + c X^2` on that data; (c) paths with `X ≥ strike` contribute
nothing: any payoff/indicator matrices agreeing with the run's on the
in-the-money paths produce the same fitted model. -/
theorem c3_regression_construction (P : AmOptionParams K) (sp : ℕ → ℕ → K)
    (spCols k : ℕ) (hk : k < P.modelNSteps - 1)
    (hdet : gramDet (stepDataAt P sp spCols k) ≠ 0) :
    stepDataAt P sp spCols k =
      ((List.range P.numberOfPaths).filter
          (fun p => decide (sp p (P.modelNSteps - 1 - k) < P.strike))).map
        (fun p => (sp p (P.modelNSteps - 1 - k),
          ∑ i ∈ Finset.Ico (P.modelNSteps - 1 - k) P.modelNSteps,
            (runUpTo P sp spCols k).payoffMatrix p i *
              (runUpTo P sp spCols k).exerciseDecisionMatrix p i *
              P.discStep ^ (i - (P.modelNSteps - 2 - k)))) ∧
    (∀ γ : K × K × K,
      sse (stepDataAt P sp spCols k)
          (stepModel P (P.modelNSteps - 2 - k) (runUpTo P sp spCols k)) ≤
        sse (stepDataAt P sp spCols k) γ) ∧
    (∀ payoffSub' edSub' : ℕ → ℕ → K,
      (∀ p, p < P.numberOfPaths → sp p (P.modelNSteps - 1 - k) < P.strike →
        (∀ j, payoffSub' p j =
          (runUpTo P sp spCols k).payoffMatrix p (P.modelNSteps - 1 - k + j)) ∧
        (∀ j, edSub' p j =
          (runUpTo P sp spCols k).exerciseDecisionMatrix p
            (P.modelNSteps - 1 - k + j))) →
      regressionFunction P payoffSub' (subCols sp (P.modelNSteps - 1 - k)) edSub'
          ((runUpTo P sp spCols k).discountFactors ++
            [P.discStep ^ (P.modelNSteps - (P.modelNSteps - 2 - k) - 1)]) =
        stepModel P (P.modelNSteps - 2 - k) (runUpTo P sp spCols k)) := by
  have h := stateOK_runUpTo P sp spCols k
  have hidx : P.modelNSteps - 1 - k = P.modelNSteps - 2 - k + 1 := by omega
  refine ⟨?_, ?_, ?_⟩
  · simp only [stepDataAt, regressionData]
    have hfil : (List.range P.numberOfPaths).filter
        (fun p => decide ((subCols (runUpTo P sp spCols k).samplePaths
          (P.modelNSteps - 2 - k + 1)) p 0 < P.strike)) =
        (List.range P.numberOfPaths).filter
          (fun p => decide (sp p (P.modelNSteps - 1 - k) < P.strike)) := by
      refine List.filter_congr ?_
      intro p _
      rw [h.sp_eq]
      simp only [subCols]
      rw [Nat.add_zero, ← hidx]
    rw [hfil]
    refine List.map_congr_left ?_
    intro p _
    have hx : subCols (runUpTo P sp spCols k).samplePaths
        (P.modelNSteps - 2 - k + 1) p 0 = sp p (P.modelNSteps - 1 - k) := by
      rw [h.sp_eq]
      simp only [subCols]
      rw [Nat.add_zero, ← hidx]
    refine Prod.ext hx ?_
    have hy := @stepYval_run K _ P sp spCols k hk p
    rw [← hy]
    rfl
  · intro γ
    have hn := olsFit3_normal (stepDataAt P sp spCols k) hdet
    exact sse_ge_of_normal _ _ hn.1 hn.2.1 hn.2.2 γ
  · intro payoffSub' edSub' hagree
    unfold stepModel regressionFunction
    refine congrArg olsFit3 ?_
    have hsub : subCols (runUpTo P sp spCols k).samplePaths
        (P.modelNSteps - 2 - k + 1) = subCols sp (P.modelNSteps - 1 - k) := by
      rw [h.sp_eq, hidx]
    rw [hsub]
    refine regressionData_congr P _ _ _ _ _ _ ?_
    intro p hp hitm
    have hitm2 : sp p (P.modelNSteps - 1 - k) < P.strike := by
      simpa [subCols] using hitm
    obtain ⟨hM, hE⟩ := hagree p hp hitm2
    constructor
    · intro j
      rw [hM j]
      simp only [subCols]
      rw [← hidx]
    · intro j
      rw [hE j]
      simp only [subCols]
      rw [← hidx]

/-- Concrete two-step, four-path put market used to instantiate the
hypothesis-bearing theorems: strike 10, per-step discount factor `9/10`. -/
def exQP : AmOptionParams ℚ := ⟨10, 2, 2, 4, 9/10⟩

/-- Sample paths on which no early exercise is ever optimal: the three
in-the-money paths all end deep in the money, so the fitted continuation
value (which interpolates their discounted terminal payoffs exactly)
dominates every immediate payoff; the fourth path stays out of the money. -/
def exQSP : ℕ → ℕ → ℚ := fun p i =>
  ([[10, 9, 1], [10, 8, 1], [10, 7, 1], [10, 20, 20]].getD p []).getD i 0

theorem exQ_model : stepModel exQP 0 (initState exQP exQSP 3) = (81/10, 0, 0) := by
  norm_num [stepModel, regressionFunction, regressionData, olsFit3, subCols,
    initState, payOff, sumPow, sumYX, det3, groupMeanY, exQP, exQSP,
    List.range_succ, Finset.sum_range_succ]

theorem exQ_conds : ∀ p < 4, ¬ stepCond exQP 0 (initState exQP exQSP 3) p := by
  intro p hp
  unfold stepCond
  rw [exQ_model]
  interval_cases p <;>
    norm_num [getContinuationValue, payOff, initState, exQP, exQSP]

theorem exQ_noex : ∀ k, k < exQP.modelNSteps - 1 → ∀ p, p < exQP.numberOfPaths →
    ¬ stepCond exQP (exQP.modelNSteps - 2 - k) (runUpTo exQP exQSP 3 k) p := by
  intro k hk p hp
  have hk0 : k = 0 := by
    norm_num [exQP] at hk
    exact hk
  subst hk0
  have ht : exQP.modelNSteps - 2 - 0 = 0 := by norm_num [exQP]
  rw [ht, runUpTo_zero]
  exact exQ_conds p hp

theorem exQ_gramDet : gramDet (stepDataAt exQP exQSP 3 0) = 4 := by
  norm_num [gramDet, stepDataAt, regressionData, runUpTo_zero, initState,
    payOff, subCols, sumPow, sumYX, det3, exQP, exQSP,
    List.range_succ, Finset.sum_range_succ]

theorem c3_regression_construction_witness :
    0 < exQP.modelNSteps - 1 ∧ gramDet (stepDataAt exQP exQSP 3 0) ≠ 0 ∧
      (stepDataAt exQP exQSP 3 0 =
        ((List.range exQP.numberOfPaths).filter
            (fun p => decide (exQSP p (exQP.modelNSteps - 1 - 0) < exQP.strike))).map
          (fun p => (exQSP p (exQP.modelNSteps - 1 - 0),
            ∑ i ∈ Finset.Ico (exQP.modelNSteps - 1 - 0) exQP.modelNSteps,
              (runUpTo exQP exQSP 3 0).payoffMatrix p i *
                (runUpTo exQP exQSP 3 0).exerciseDecisionMatrix p i *
                exQP.discStep ^ (i - (exQP.modelNSteps - 2 - 0)))) ∧
      (∀ γ : ℚ × ℚ × ℚ,
        sse (stepDataAt exQP exQSP 3 0)
            (stepModel exQP (exQP.modelNSteps - 2 - 0) (runUpTo exQP exQSP 3 0)) ≤
          sse (stepDataAt exQP exQSP 3 0) γ) ∧
      (∀ payoffSub' edSub' : ℕ → ℕ → ℚ,
        (∀ p, p < exQP.numberOfPaths →
          exQSP p (exQP.modelNSteps - 1 - 0) < exQP.strike →
          (∀ j, payoffSub' p j =
            (runUpTo exQP exQSP 3 0).payoffMatrix p (exQP.modelNSteps - 1 - 0 + j)) ∧
          (∀ j, edSub' p j =
            (runUpTo exQP exQSP 3 0).exerciseDecisionMatrix p
              (exQP.modelNSteps - 1 - 0 + j))) →
        regressionFunction exQP payoffSub' (subCols exQSP (exQP.modelNSteps - 1 - 0))
            edSub'
            ((runUpTo exQP exQSP 3 0).discountFactors ++
              [exQP.discStep ^ (exQP.modelNSteps - (exQP.modelNSteps - 2 - 0) - 1)]) =
          stepModel exQP (exQP.modelNSteps - 2 - 0) (runUpTo exQP exQSP 3 0))) :=
  ⟨by norm_num [exQP], by rw [exQ_gramDet]; norm_num,
    c3_regression_construction exQP exQSP 3 0 (by norm_num [exQP])
      (by rw [exQ_gramDet]; norm_num)⟩

theorem c5_finalization_witness :
    exQP.optionNSteps = exQP.modelNSteps ∧
      (priceAmByLSMC exQP exQSP 3).V =
        (∑ p ∈ Finset.range exQP.numberOfPaths,
            ∑ i ∈ Finset.range exQP.modelNSteps,
              (loopState exQP exQSP 3).payoffMatrix p i *
                exQP.discStep ^ (i + 1)) / (exQP.numberOfPaths : ℚ) :=
  ⟨rfl, c5_finalization exQP exQSP 3 rfl⟩

theorem c7_amended_premium_nonneg_witness :
    (0 : ℚ) ≤ exQP.discStep ∧ 1 ≤ exQP.modelNSteps ∧
      exQP.optionNSteps = exQP.modelNSteps ∧
      (∀ k, k < exQP.modelNSteps - 1 → ∀ p, p < exQP.numberOfPaths →
        stepCond exQP (exQP.modelNSteps - 2 - k) (runUpTo exQP exQSP 3 k) p →
        stepYval exQP (exQP.modelNSteps - 2 - k) (runUpTo exQP exQSP 3 k) p ≤
          payOff exQP (exQSP p (exQP.modelNSteps - 2 - k + 1))) ∧
      priceByBSMC exQP.strike (exQP.discStep ^ exQP.modelNSteps)
          exQP.numberOfPaths exQSP 3 ≤ (priceAmByLSMC exQP exQSP 3).V :=
  ⟨by norm_num [exQP], by norm_num [exQP], rfl,
    fun k hk p hp hc => absurd hc (exQ_noex k hk p hp),
    c7_amended_premium_nonneg exQP exQSP 3 (by norm_num [exQP])
      (by norm_num [exQP]) rfl
      (fun k hk p hp hc => absurd hc (exQ_noex k hk p hp))⟩

theorem c8_amended_path_mismatch_witness :
    (3 : ℕ) ≠ 0 ∧ exQP.modelNSteps ≠ 0 ∧ (5 : ℕ) ≠ exQP.numberOfPaths ∧
      (5 : ℕ) ≠ 1 ∧ priceAmByLSMCChecked exQP exQSP 5 3 = none :=
  ⟨by norm_num, by norm_num [exQP], by norm_num [exQP], by norm_num,
    c8_amended_path_mismatch exQP exQSP 5 3 (by norm_num)
      (by norm_num [exQP]) (by norm_num [exQP]) (by norm_num)⟩

theorem c4_amended_degenerate_interpolates_witness :
    (8 : ℚ) ≠ 9 ∧ (8 : ℚ) + 9 ≠ 0 ∧
      (getContinuationValue (olsFit3 [((8 : ℚ), 4), (9, 0)]) 8 = 4 ∧
        getContinuationValue (olsFit3 [((8 : ℚ), 4), (9, 0)]) 9 = 0) :=
  ⟨by norm_num, by norm_num,
    c4_amended_degenerate_interpolates 8 9 4 0 (by norm_num) (by norm_num)⟩

section WorkedExample

/-- Field-by-field reading of one backward iteration (definitional). -/
theorem lsmcStep_payoffMatrix (P : AmOptionParams K) (t : ℕ) (st : LSMCState K)
    (p i : ℕ) :
    (lsmcStep P t st).payoffMatrix p i =
      if i = t then
        (if stepCond P t st p then payOff P (st.samplePaths p (t + 1)) else 0)
      else if t < i ∧ stepCond P t st p then 0
      else st.payoffMatrix p i := rfl

theorem lsmcStep_exerciseDecisionMatrix (P : AmOptionParams K) (t : ℕ)
    (st : LSMCState K) (p i : ℕ) :
    (lsmcStep P t st).exerciseDecisionMatrix p i =
      if i = t then (if stepCond P t st p then 1 else 0)
      else if t < i ∧ stepCond P t st p then 0
      else st.exerciseDecisionMatrix p i := rfl

theorem lsmcStep_samplePaths (P : AmOptionParams K) (t : ℕ) (st : LSMCState K) :
    (lsmcStep P t st).samplePaths = st.samplePaths := rfl

theorem lsmcStep_discountFactors (P : AmOptionParams K) (t : ℕ)
    (st : LSMCState K) :
    (lsmcStep P t st).discountFactors =
      st.discountFactors ++ [P.discStep ^ (P.modelNSteps - t - 1)] := rfl

theorem initState_payoffMatrix (P : AmOptionParams K) (sp : ℕ → ℕ → K)
    (spCols p i : ℕ) :
    (initState P sp spCols).payoffMatrix p i =
      if i = P.modelNSteps - 1 then payOff P (sp p (spCols - 1)) else 0 := rfl

theorem initState_exerciseDecisionMatrix (P : AmOptionParams K)
    (sp : ℕ → ℕ → K) (spCols p i : ℕ) :
    (initState P sp spCols).exerciseDecisionMatrix p i =
      if i = P.modelNSteps - 1 then
        (if payOff P (sp p (spCols - 1)) > 0 then 1 else 0)
      else 0 := rfl

theorem initState_samplePaths (P : AmOptionParams K) (sp : ℕ → ℕ → K)
    (spCols : ℕ) : (initState P sp spCols).samplePaths = sp := rfl

theorem initState_discountFactors (P : AmOptionParams K) (sp : ℕ → ℕ → K)
    (spCols : ℕ) : (initState P sp spCols).discountFactors = [] := rfl

/-- Parameters of the worked Longstaff-Schwartz example: strike `1.1`,
three steps, eight paths; `d` is the one-period discount factor
`exp (-r * dt)` with `r = 0.06` and `dt = 1`. -/
def lsParams (d : K) : AmOptionParams K := ⟨11/10, 3, 3, 8, d⟩

/-- The fixed 8-path, 3-step sample-path matrix of the worked example
(rows are paths, columns are times 0..3). -/
def lsSP : ℕ → ℕ → K := fun p i =>
  (([[1, 109/100, 27/25, 67/50],
     [1, 29/25, 63/50, 77/50],
     [1, 61/50, 107/100, 103/100],
     [1, 93/100, 97/100, 23/25],
     [1, 111/100, 39/25, 38/25],
     [1, 19/25, 77/100, 9/10],
     [1, 23/25, 21/25, 101/100],
     [1, 22/25, 61/50, 67/50]] : List (List K)).getD p []).getD i 0

theorem lsParams_strike (d : K) : (lsParams d).strike = 11/10 := rfl

theorem lsParams_optionNSteps (d : K) : (lsParams d).optionNSteps = 3 := rfl

theorem lsParams_modelNSteps (d : K) : (lsParams d).modelNSteps = 3 := rfl

theorem lsParams_numberOfPaths (d : K) : (lsParams d).numberOfPaths = 8 := rfl

theorem lsParams_discStep (d : K) : (lsParams d).discStep = d := rfl

set_option maxHeartbeats 3000000

/-- The regression fitted in the first backward iteration (time index 1):
the in-the-money paths are 0, 2, 3, 5, 6 and the model is linear in the
discount factor `d` because every dependent value is `d` times a terminal
payoff. -/
theorem ls_model1 (d : K) :
    stepModel (lsParams d) 1 (initState (lsParams d) lsSP 4) =
      (-2246419497/1977217400 * d, 31318080/9886087 * d,
        -19037850/9886087 * d) := by
  norm_num [stepModel, regressionFunction, regressionData, olsFit3, subCols,
    initState, payOff, sumPow, sumYX, det3, groupMeanY, lsParams, lsSP,
    List.range_succ, Finset.sum_range_succ]
  refine ⟨by ring, by ring, by ring⟩

theorem ls_cond1_p0 {d : K} (hd1 : (94176/100000 : K) < d) :
    ¬ stepCond (lsParams d) 1 (initState (lsParams d) lsSP 4) 0 := by
  unfold stepCond
  rw [ls_model1 d]
  norm_num [getContinuationValue, payOff, initState, lsParams, lsSP]
  linarith [hd1]

theorem ls_cond1_p1 {d : K} :
    ¬ stepCond (lsParams d) 1 (initState (lsParams d) lsSP 4) 1 := by
  unfold stepCond
  norm_num [payOff, initState, lsParams, lsSP]

theorem ls_cond1_p2 {d : K} (hd1 : (94176/100000 : K) < d) :
    ¬ stepCond (lsParams d) 1 (initState (lsParams d) lsSP 4) 2 := by
  unfold stepCond
  rw [ls_model1 d]
  norm_num [getContinuationValue, payOff, initState, lsParams, lsSP]
  linarith [hd1]

theorem ls_cond1_p3 {d : K} (hd2 : d < (94177/100000 : K)) :
    stepCond (lsParams d) 1 (initState (lsParams d) lsSP 4) 3 := by
  unfold stepCond
  rw [ls_model1 d]
  norm_num [getContinuationValue, payOff, initState, lsParams, lsSP]
  linarith [hd2]

theorem ls_cond1_p4 {d : K} :
    ¬ stepCond (lsParams d) 1 (initState (lsParams d) lsSP 4) 4 := by
  unfold stepCond
  norm_num [payOff, initState, lsParams, lsSP]

theorem ls_cond1_p5 {d : K} (hd2 : d < (94177/100000 : K)) :
    stepCond (lsParams d) 1 (initState (lsParams d) lsSP 4) 5 := by
  unfold stepCond
  rw [ls_model1 d]
  norm_num [getContinuationValue, payOff, initState, lsParams, lsSP]
  linarith [hd2]

theorem ls_cond1_p6 {d : K} (hd2 : d < (94177/100000 : K)) :
    stepCond (lsParams d) 1 (initState (lsParams d) lsSP 4) 6 := by
  unfold stepCond
  rw [ls_model1 d]
  norm_num [getContinuationValue, payOff, initState, lsParams, lsSP]
  linarith [hd2]

theorem ls_cond1_p7 {d : K} :
    ¬ stepCond (lsParams d) 1 (initState (lsParams d) lsSP 4) 7 := by
  unfold stepCond
  norm_num [payOff, initState, lsParams, lsSP]

/-- The regression fitted in the second backward iteration (time index 0),
computed on the cash-flow state left by the first iteration. -/
theorem ls_model2 {d : K} (hd1 : (94176/100000 : K) < d)
    (hd2 : d < (94177/100000 : K)) :
    stepModel (lsParams d) 0
        (lsmcStep (lsParams d) 1 (initState (lsParams d) lsSP 4)) =
      (266982367/123402700 * d, -34964385/9872216 * d, 3554825/2468054 * d) := by
  norm_num [stepModel, regressionFunction, regressionData, olsFit3, subCols,
    sumPow, sumYX, det3, groupMeanY, lsParams_strike, lsParams_optionNSteps,
    lsParams_modelNSteps, lsParams_numberOfPaths, lsParams_discStep, lsSP,
    payOff, lsmcStep_payoffMatrix, lsmcStep_exerciseDecisionMatrix,
    lsmcStep_samplePaths, lsmcStep_discountFactors,
    initState_payoffMatrix, initState_exerciseDecisionMatrix,
    initState_samplePaths, initState_discountFactors,
    eq_false (ls_cond1_p0 hd1), eq_false ls_cond1_p1,
    eq_false (ls_cond1_p2 hd1), eq_true (ls_cond1_p3 hd2),
    eq_false ls_cond1_p4, eq_true (ls_cond1_p5 hd2),
    eq_true (ls_cond1_p6 hd2), eq_false ls_cond1_p7,
    List.range_succ, Finset.sum_range_succ]
  refine ⟨by ring, by ring, by ring⟩

theorem ls_cond2_p0 {d : K} (hd1 : (94176/100000 : K) < d)
    (hd2 : d < (94177/100000 : K)) :
    ¬ stepCond (lsParams d) 0
        (lsmcStep (lsParams d) 1 (initState (lsParams d) lsSP 4)) 0 := by
  unfold stepCond
  rw [ls_model2 hd1 hd2]
  norm_num [getContinuationValue, payOff, lsmcStep_samplePaths,
    initState_samplePaths, lsParams, lsSP]
  linarith [hd1]

theorem ls_cond2_p1 {d : K} :
    ¬ stepCond (lsParams d) 0
        (lsmcStep (lsParams d) 1 (initState (lsParams d) lsSP 4)) 1 := by
  unfold stepCond
  norm_num [payOff, lsmcStep_samplePaths, initState_samplePaths, lsParams, lsSP]

theorem ls_cond2_p2 {d : K} :
    ¬ stepCond (lsParams d) 0
        (lsmcStep (lsParams d) 1 (initState (lsParams d) lsSP 4)) 2 := by
  unfold stepCond
  norm_num [payOff, lsmcStep_samplePaths, initState_samplePaths, lsParams, lsSP]

theorem ls_cond2_p3 {d : K} (hd1 : (94176/100000 : K) < d)
    (hd2 : d < (94177/100000 : K)) :
    stepCond (lsParams d) 0
        (lsmcStep (lsParams d) 1 (initState (lsParams d) lsSP 4)) 3 := by
  unfold stepCond
  rw [ls_model2 hd1 hd2]
  norm_num [getContinuationValue, payOff, lsmcStep_samplePaths,
    initState_samplePaths, lsParams, lsSP]
  linarith [hd2]

theorem ls_cond2_p4 {d : K} :
    ¬ stepCond (lsParams d) 0
        (lsmcStep (lsParams d) 1 (initState (lsParams d) lsSP 4)) 4 := by
  unfold stepCond
  norm_num [payOff, lsmcStep_samplePaths, initState_samplePaths, lsParams, lsSP]

theorem ls_cond2_p5 {d : K} (hd1 : (94176/100000 : K) < d)
    (hd2 : d < (94177/100000 : K)) :
    stepCond (lsParams d) 0
        (lsmcStep (lsParams d) 1 (initState (lsParams d) lsSP 4)) 5 := by
  unfold stepCond
  rw [ls_model2 hd1 hd2]
  norm_num [getContinuationValue, payOff, lsmcStep_samplePaths,
    initState_samplePaths, lsParams, lsSP]
  linarith [hd2]

theorem ls_cond2_p6 {d : K} (hd1 : (94176/100000 : K) < d)
    (hd2 : d < (94177/100000 : K)) :
    stepCond (lsParams d) 0
        (lsmcStep (lsParams d) 1 (initState (lsParams d) lsSP 4)) 6 := by
  unfold stepCond
  rw [ls_model2 hd1 hd2]
  norm_num [getContinuationValue, payOff, lsmcStep_samplePaths,
    initState_samplePaths, lsParams, lsSP]
  linarith [hd2]

theorem ls_cond2_p7 {d : K} (hd1 : (94176/100000 : K) < d)
    (hd2 : d < (94177/100000 : K)) :
    stepCond (lsParams d) 0
        (lsmcStep (lsParams d) 1 (initState (lsParams d) lsSP 4)) 7 := by
  unfold stepCond
  rw [ls_model2 hd1 hd2]
  norm_num [getContinuationValue, payOff, lsmcStep_samplePaths,
    initState_samplePaths, lsParams, lsSP]
  linarith [hd2]

theorem ls_loop (d : K) :
    loopState (lsParams d) lsSP 4 =
      lsmcStep (lsParams d) 0
        (lsmcStep (lsParams d) 1 (initState (lsParams d) lsSP 4)) := by
  rw [loopState_eq_runUpTo]
  have h2 : (lsParams d : AmOptionParams K).modelNSteps - 1 = 2 := rfl
  rw [h2]
  have ha : runUpTo (lsParams d) lsSP 4 2 =
      lsmcStep (lsParams d) ((lsParams d : AmOptionParams K).modelNSteps - 2 - 1)
        (runUpTo (lsParams d) lsSP 4 1) :=
    runUpTo_succ_of_lt (by norm_num [lsParams])
  have hb : runUpTo (lsParams d) lsSP 4 1 =
      lsmcStep (lsParams d) ((lsParams d : AmOptionParams K).modelNSteps - 2 - 0)
        (runUpTo (lsParams d) lsSP 4 0) :=
    runUpTo_succ_of_lt (by norm_num [lsParams])
  rw [ha, hb, runUpTo_zero]
  rfl

theorem ls_V {d : K} (hd1 : (94176/100000 : K) < d)
    (hd2 : d < (94177/100000 : K)) :
    (priceAmByLSMC (lsParams d) lsSP 4).V =
      (91/100 * d + 7/100 * d ^ 3) / 8 := by
  simp only [priceAmByLSMC]
  rw [ls_loop d]
  norm_num [lsmcStep_payoffMatrix, lsmcStep_exerciseDecisionMatrix,
    lsmcStep_samplePaths, lsmcStep_discountFactors,
    initState_payoffMatrix, initState_exerciseDecisionMatrix,
    initState_samplePaths, initState_discountFactors,
    eq_false (ls_cond1_p0 hd1), eq_false ls_cond1_p1,
    eq_false (ls_cond1_p2 hd1), eq_true (ls_cond1_p3 hd2),
    eq_false ls_cond1_p4, eq_true (ls_cond1_p5 hd2),
    eq_true (ls_cond1_p6 hd2), eq_false ls_cond1_p7,
    eq_false (ls_cond2_p0 hd1 hd2), eq_false ls_cond2_p1,
    eq_false ls_cond2_p2, eq_true (ls_cond2_p3 hd1 hd2),
    eq_false ls_cond2_p4, eq_true (ls_cond2_p5 hd1 hd2),
    eq_true (ls_cond2_p6 hd1 hd2), eq_true (ls_cond2_p7 hd1 hd2),
    payOff, lsParams_strike, lsParams_optionNSteps, lsParams_modelNSteps,
    lsParams_numberOfPaths, lsParams_discStep, lsSP, Finset.sum_range_succ]
  ring

theorem ls_terminal (d : K) :
    (List.range 8).map
        (fun p => (initState (lsParams d) lsSP 4).payoffMatrix p 2) =
      [0, 0, 7/100, 18/100, 0, 20/100, 9/100, 0] := by
  norm_num [initState_payoffMatrix, payOff, lsParams, lsSP, List.range_succ]

theorem ls_decision2 {d : K} (hd1 : (94176/100000 : K) < d)
    (hd2 : d < (94177/100000 : K)) :
    (List.range 8).map
        (fun p => (runUpTo (lsParams d) lsSP 4 1).exerciseDecisionMatrix p 1) =
      [0, 0, 0, 1, 0, 1, 1, 0] := by
  have hb : runUpTo (lsParams d) lsSP 4 1 =
      lsmcStep (lsParams d) ((lsParams d : AmOptionParams K).modelNSteps - 2 - 0)
        (runUpTo (lsParams d) lsSP 4 0) :=
    runUpTo_succ_of_lt (by norm_num [lsParams])
  rw [hb, runUpTo_zero]
  norm_num [lsmcStep_exerciseDecisionMatrix, List.range_succ,
    eq_false (ls_cond1_p0 hd1), eq_false ls_cond1_p1,
    eq_false (ls_cond1_p2 hd1), eq_true (ls_cond1_p3 hd2),
    eq_false ls_cond1_p4, eq_true (ls_cond1_p5 hd2),
    eq_true (ls_cond1_p6 hd2), eq_false ls_cond1_p7,
    show ((lsParams d : AmOptionParams K).modelNSteps - 2 - 0) = 1 from rfl]

theorem ls_cube_lb {d : K} (hd1 : (94176/100000 : K) < d) :
    (8352/10000 : K) < d ^ 3 := by
  have h0 : (0 : K) ≤ 94176/100000 := by norm_num
  have h3 := pow_lt_pow_left₀ hd1 h0 (by norm_num : (3:ℕ) ≠ 0)
  calc (8352/10000 : K) < (94176/100000 : K) ^ 3 := by norm_num
    _ < d ^ 3 := h3

theorem ls_cube_ub {d : K} (hd1 : (94176/100000 : K) < d)
    (hd2 : d < (94177/100000 : K)) :
    d ^ 3 < (8353/10000 : K) := by
  have h0 : (0 : K) ≤ d := by linarith
  have h3 := pow_lt_pow_left₀ hd2 h0 (by norm_num : (3:ℕ) ≠ 0)
  calc d ^ 3 < (94177/100000 : K) ^ 3 := h3
    _ < (8353/10000 : K) := by norm_num

theorem ls_E {d : K} (hd1 : (94176/100000 : K) < d)
    (hd2 : d < (94177/100000 : K)) :
    |priceByBSMC (11/10 : K) (d ^ 3) 8 lsSP 4 - 564/10000| < 1/10000 := by
  have hE : priceByBSMC (11/10 : K) (d ^ 3) 8 lsSP 4 = 27/400 * d ^ 3 := by
    norm_num [priceByBSMC, lsSP, Finset.sum_range_succ]
    ring
  rw [hE, abs_lt]
  have h1 := ls_cube_lb hd1
  have h2 := ls_cube_ub hd1 hd2
  constructor <;> linarith

/-- Bounds on the one-period discount factor `exp (-0.06)` used by the
worked example, from the fourth-order Taylor estimate of `exp`. -/
theorem expD_bounds : (94176/100000 : ℝ) < Real.exp (-(3/50)) ∧
    Real.exp (-(3/50)) < (94177/100000 : ℝ) := by
  have hx : |(3 : ℝ)/50| ≤ 1 := by
    rw [abs_of_nonneg (by norm_num : (0:ℝ) ≤ 3/50)]
    norm_num
  have hb := Real.exp_bound hx (by norm_num : 0 < 4)
  have hsum : ∑ m ∈ Finset.range 4, ((3:ℝ)/50) ^ m / m.factorial =
      796377/750000 := by
    simp [Finset.sum_range_succ, Nat.factorial]
    norm_num
  rw [hsum] at hb
  have hb2 : |Real.exp (3/50) - 796377/750000| ≤ (27/40000000 : ℝ) := by
    refine le_trans hb (le_of_eq ?_)
    rw [abs_of_nonneg (by norm_num : (0:ℝ) ≤ 3/50)]
    norm_num [Nat.factorial]
  obtain ⟨hlo, hhi⟩ := abs_le.mp hb2
  have hexp_lb : (1061835/1000000 : ℝ) ≤ Real.exp (3/50) := by linarith
  have hexp_ub : Real.exp (3/50) ≤ (10618367/10000000 : ℝ) := by linarith
  have hpos : (0:ℝ) < Real.exp (3/50) := Real.exp_pos _
  rw [Real.exp_neg]
  constructor
  · have h1 : Real.exp (3/50) < (100000/94176 : ℝ) := by linarith [hexp_ub]
    have h2 := inv_strictAnti₀ hpos h1
    calc (94176/100000 : ℝ) = ((100000/94176 : ℝ))⁻¹ := by norm_num
      _ < (Real.exp (3/50))⁻¹ := h2
  · have h1 : (100000/94177 : ℝ) < Real.exp (3/50) := by linarith [hexp_lb]
    have h2 := inv_strictAnti₀ (by norm_num : (0:ℝ) < 100000/94177) h1
    calc (Real.exp (3/50))⁻¹ < ((100000/94177 : ℝ))⁻¹ := h2
      _ = (94177/100000 : ℝ) := by norm_num

/-- Claim C6 (worked-example correctness): with the fixed 8-path matrix,
strike `1.1`, `r = 0.06` and `dt = 1` (so the per-step discount factor is
`exp (-0.06)`), the terminal payoff column is
`[0, 0, 0.07, 0.18, 0, 0.20, 0.09, 0]`; the first backward iteration (the
decision at `t = 2`) marks exactly the 0-indexed paths 3, 5 and 6 as
exercising; the final American price is `0.1144` to four decimals; and the
European price obtained by discounting only the terminal payoffs (with
`exp (-r T) = exp (-0.18)`) is `0.0564` to four decimals. -/
theorem c6_worked_example :
    (List.range 8).map
        (fun p => (initState (lsParams (Real.exp (-(3/50)))) lsSP 4).payoffMatrix p 2) =
      [0, 0, 7/100, 18/100, 0, 20/100, 9/100, 0] ∧
    (List.range 8).map
        (fun p =>
          (runUpTo (lsParams (Real.exp (-(3/50)))) lsSP 4 1).exerciseDecisionMatrix p 1) =
      [0, 0, 0, 1, 0, 1, 1, 0] ∧
    |(priceAmByLSMC (lsParams (Real.exp (-(3/50)))) lsSP 4).V - 1144/10000| <
      1/10000 ∧
    |priceByBSMC (11/10 : ℝ) (Real.exp (-(9/50))) 8 lsSP 4 - 564/10000| <
      1/10000 := by
  obtain ⟨hd1, hd2⟩ := expD_bounds
  refine ⟨ls_terminal _, ls_decision2 hd1 hd2, ?_, ?_⟩
  · rw [ls_V hd1 hd2, abs_lt]
    have h1 := ls_cube_lb hd1
    have h2 := ls_cube_ub hd1 hd2
    constructor <;> linarith
  · have hcube : Real.exp (-(9/50)) = Real.exp (-(3/50)) ^ 3 := by
      rw [← Real.exp_nat_mul]
      norm_num
    rw [hcube]
    exact ls_E hd1 hd2

end WorkedExample

theorem c10_no_exercise_european_witness :
    1 ≤ exQP.modelNSteps ∧ exQP.optionNSteps = exQP.modelNSteps ∧
      (∀ k, k < exQP.modelNSteps - 1 → ∀ p, p < exQP.numberOfPaths →
        ¬ stepCond exQP (exQP.modelNSteps - 2 - k) (runUpTo exQP exQSP 3 k) p) ∧
      (priceAmByLSMC exQP exQSP 3).V =
        priceByBSMC exQP.strike (exQP.discStep ^ exQP.modelNSteps)
          exQP.numberOfPaths exQSP 3 :=
  ⟨by norm_num [exQP], rfl, exQ_noex,
    c10_no_exercise_european exQP exQSP 3 (by norm_num [exQP]) rfl exQ_noex⟩

end LSMC
